import Mathlib

/-
  Verification development for the go-ascii-calendar repository.

  Shallow embedding of the navigation/selection state model
  (terminal/navigation.go, models/selection.go), the calendar date math
  (calendar/utils.go and Go's time package normalization), the event
  manager (events/manager.go), and the time-input validator
  (terminal/input.go).

  Dates are civil dates at midnight in a single fixed location, so a Go
  time.Time value as used by this program is represented by its
  (year, month, day) triple; time.Time.Before/After/Equal on such values
  coincide with lexicographic comparison of the triples.
-/

/-- A Go time.Time value normalized to midnight, as produced by every
time.Date(y, m, d, 0, 0, 0, 0, loc) call in the repository.  Fields mirror
Year(), Month(), Day(). -/
structure Date where
  year : Int
  month : Int
  day : Int
deriving DecidableEq, Repr, Inhabited

/-- calendar/utils.go IsLeapYear.  Go's % is truncated division and Lean's
Int.emod is Euclidean, but the two agree on equality with zero, which is all
this function uses. -/
def isLeapYear (y : Int) : Bool :=
  (y % 4 == 0 && y % 100 != 0) || y % 400 == 0

/-- Number of days of month m of year y (1 = January .. 12 = December),
the primitive the Gregorian arithmetic of Go's time package is built on.
Only ever applied to m in 1..12. -/
def monthLength (y m : Int) : Int :=
  if m = 2 then (if isLeapYear y then 29 else 28)
  else if m = 4 ∨ m = 6 ∨ m = 9 ∨ m = 11 then 30
  else 31

/-- Month normalization of Go's time.Date: norm(year, month-1, 12) brings the
zero-based month into [0,12) moving whole years, which is exactly Euclidean
division by 12.  Returns (year, month) with month in 1..12. -/
def normYM (y m : Int) : Int × Int :=
  (y + (m - 1) / 12, (m - 1) % 12 + 1)

/-- Day normalization of Go's time.Date: a (year, normalized month, day)
triple with an arbitrary day is moved month by month until the day is in
range.  Go computes this through the absolute-day timeline; stepping one
month at a time is the same function.  The fuel argument bounds the number
of month steps; callers pass day.natAbs + 400 which always suffices (each
step changes day by at least 28), so the fuel-exhausted branch is
unreachable. -/
def dayNormAux : Nat → Int → Int → Int → Date
  | 0, y, m, d => ⟨y, m, d⟩
  | fuel + 1, y, m, d =>
    if d < 1 then
      let p := normYM y (m - 1)
      dayNormAux fuel p.1 p.2 (d + monthLength p.1 p.2)
    else if d > monthLength y m then
      let p := normYM y (m + 1)
      dayNormAux fuel p.1 p.2 (d - monthLength y m)
    else ⟨y, m, d⟩

/-- Go time.Date(y, m, d, 0, 0, 0, 0, loc): normalize the month, then the
day. -/
def mkDate (y m d : Int) : Date :=
  let p := normYM y m
  dayNormAux (d.natAbs + 400) p.1 p.2 d

/-- Go time.Time.AddDate(years, months, days) = time.Date(year+years,
month+months, day+days, ...). -/
def addDate (t : Date) (years months days : Int) : Date :=
  mkDate (t.year + years) (t.month + months) (t.day + days)

/-- Go time.Time.Before for midnight-normalized values in one location:
strict lexicographic order on (year, month, day). -/
def dateBefore (a b : Date) : Bool :=
  a.year < b.year ||
    (a.year == b.year && (a.month < b.month ||
      (a.month == b.month && a.day < b.day)))

/-- Go time.Time.After a b = dateBefore b a for the values used here. -/
def dateAfter (a b : Date) : Bool := dateBefore b a

/-- A Date as produced by the application: month in range and day in range
for that month. -/
def ValidDate (t : Date) : Prop :=
  1 ≤ t.month ∧ t.month ≤ 12 ∧ 1 ≤ t.day ∧ t.day ≤ monthLength t.year t.month

instance (t : Date) : Decidable (ValidDate t) := by
  unfold ValidDate; infer_instance

-- Basic facts about the month length table.

theorem monthLength_pos (y m : Int) : 28 ≤ monthLength y m := by
  unfold monthLength
  split_ifs <;> omega

theorem monthLength_le (y m : Int) : monthLength y m ≤ 31 := by
  unfold monthLength
  split_ifs <;> omega

theorem normYM_eq_self (y m : Int) (h1 : 1 ≤ m) (h2 : m ≤ 12) :
    normYM y m = (y, m) := by
  unfold normYM
  have hd : (m - 1) / 12 = 0 := by omega
  have hm : (m - 1) % 12 = m - 1 := by omega
  rw [hd, hm]
  refine Prod.ext ?_ ?_ <;> simp <;> omega

/-- Characterization of normYM one month below the valid range. -/
theorem normYM_pred (y m : Int) (h1 : 1 ≤ m) (h2 : m ≤ 12) :
    normYM y (m - 1) = if m = 1 then (y - 1, 12) else (y, m - 1) := by
  unfold normYM
  split_ifs with h
  · subst h
    have hd : ((1 : Int) - 1 - 1) / 12 = -1 := by decide
    have hm : ((1 : Int) - 1 - 1) % 12 = 11 := by decide
    rw [hd, hm]
    refine Prod.ext ?_ ?_ <;> simp <;> omega
  · have hd : (m - 1 - 1) / 12 = 0 := by omega
    have hm : (m - 1 - 1) % 12 = m - 2 := by omega
    rw [hd, hm]
    refine Prod.ext ?_ ?_ <;> simp <;> omega

/-- Characterization of normYM one month above the valid range. -/
theorem normYM_succ (y m : Int) (h1 : 1 ≤ m) (h2 : m ≤ 12) :
    normYM y (m + 1) = if m = 12 then (y + 1, 1) else (y, m + 1) := by
  unfold normYM
  split_ifs with h
  · subst h
    have hd : ((12 : Int) + 1 - 1) / 12 = 1 := by decide
    have hm : ((12 : Int) + 1 - 1) % 12 = 0 := by decide
    rw [hd, hm]
    refine Prod.ext ?_ ?_ <;> simp
  · have hd : (m + 1 - 1) / 12 = 0 := by omega
    have hm : (m + 1 - 1) % 12 = m := by omega
    rw [hd, hm]
    refine Prod.ext ?_ ?_ <;> simp <;> omega

theorem dayNormAux_in_range (fuel : Nat) (y m d : Int)
    (hd1 : 1 ≤ d) (hd2 : d ≤ monthLength y m) :
    dayNormAux (fuel + 1) y m d = ⟨y, m, d⟩ := by
  unfold dayNormAux
  have h1 : ¬ d < 1 := by omega
  have h2 : ¬ d > monthLength y m := by omega
  simp [h1, h2]

theorem mkDate_valid (y m d : Int) (hm1 : 1 ≤ m) (hm2 : m ≤ 12)
    (hd1 : 1 ≤ d) (hd2 : d ≤ monthLength y m) :
    mkDate y m d = ⟨y, m, d⟩ := by
  unfold mkDate
  rw [normYM_eq_self y m hm1 hm2]
  have hfuel : d.natAbs + 400 = (d.natAbs + 399) + 1 := by omega
  rw [hfuel, dayNormAux_in_range _ y m d hd1 hd2]

/-- The month before (y, m), for m in 1..12. -/
def ymPred (y m : Int) : Int × Int := if m = 1 then (y - 1, 12) else (y, m - 1)

/-- The month after (y, m), for m in 1..12. -/
def ymSucc (y m : Int) : Int × Int := if m = 12 then (y + 1, 1) else (y, m + 1)

theorem ymPred_valid (y m : Int) (h1 : 1 ≤ m) (h2 : m ≤ 12) :
    1 ≤ (ymPred y m).2 ∧ (ymPred y m).2 ≤ 12 := by
  unfold ymPred
  split_ifs <;> constructor <;> simp <;> omega

theorem ymSucc_valid (y m : Int) (h1 : 1 ≤ m) (h2 : m ≤ 12) :
    1 ≤ (ymSucc y m).2 ∧ (ymSucc y m).2 ≤ 12 := by
  unfold ymSucc
  split_ifs <;> constructor <;> simp <;> omega

theorem ymPred_ymSucc (y m : Int) (h1 : 1 ≤ m) (h2 : m ≤ 12) :
    ymPred (ymSucc y m).1 (ymSucc y m).2 = (y, m) := by
  unfold ymPred ymSucc
  split_ifs with ha hb hb <;> refine Prod.ext ?_ ?_ <;> simp_all <;> omega

/-- mkDate for a day value at most one month below the valid range. -/
theorem mkDate_low (y m d : Int) (hm1 : 1 ≤ m) (hm2 : m ≤ 12)
    (hd2 : d ≤ 0)
    (hd1 : 1 - monthLength (ymPred y m).1 (ymPred y m).2 ≤ d) :
    mkDate y m d =
      ⟨(ymPred y m).1, (ymPred y m).2,
        d + monthLength (ymPred y m).1 (ymPred y m).2⟩ := by
  unfold mkDate
  rw [normYM_eq_self y m hm1 hm2]
  have hfuel : d.natAbs + 400 = ((d.natAbs + 398) + 1) + 1 := by omega
  rw [hfuel]
  unfold dayNormAux
  have h1 : d < 1 := by omega
  simp only [h1, if_true]
  have hp : normYM y (m - 1) = ymPred y m := by
    rw [normYM_pred y m hm1 hm2]; unfold ymPred; rfl
  rw [hp]
  exact dayNormAux_in_range _ _ _ _ (by omega) (by omega)

/-- mkDate for a day value at most one month above the valid range. -/
theorem mkDate_high (y m d : Int) (hm1 : 1 ≤ m) (hm2 : m ≤ 12)
    (hd1 : monthLength y m < d)
    (hd2 : d ≤ monthLength y m + monthLength (ymSucc y m).1 (ymSucc y m).2) :
    mkDate y m d = ⟨(ymSucc y m).1, (ymSucc y m).2, d - monthLength y m⟩ := by
  unfold mkDate
  rw [normYM_eq_self y m hm1 hm2]
  have hfuel : d.natAbs + 400 = ((d.natAbs + 398) + 1) + 1 := by omega
  rw [hfuel]
  unfold dayNormAux
  have h1 : ¬ d < 1 := by
    have := monthLength_pos y m; omega
  have h2 : d > monthLength y m := hd1
  simp only [h1, if_false, h2, if_true]
  have hp : normYM y (m + 1) = ymSucc y m := by
    rw [normYM_succ y m hm1 hm2]; unfold ymSucc; rfl
  rw [hp]
  exact dayNormAux_in_range _ _ _ _ (by omega) (by omega)

/-- navigation.go getLastDayOfMonth / models/selection.go getLastDayOfMonth /
calendar/utils.go GetLastDayOfMonth: time.Date(y, m+1, 1, ...).AddDate(0, 0, -1). -/
def getLastDayOfMonth (date : Date) : Date :=
  addDate (mkDate date.year (date.month + 1) 1) 0 0 (-1)

/-- navigation.go getDaysInMonth / calendar/utils.go GetDaysInMonth:
day of the last day of the month of the argument. -/
def getDaysInMonth (date : Date) : Int :=
  (getLastDayOfMonth date).day

/-- calendar/utils.go GetFirstDayOfMonth: time.Date(y, m, 1, ...). -/
def getFirstDayOfMonth (date : Date) : Date :=
  mkDate date.year date.month 1

theorem getLastDayOfMonth_eq (y m d0 : Int) (hm1 : 1 ≤ m) (hm2 : m ≤ 12) :
    getLastDayOfMonth ⟨y, m, d0⟩ = ⟨y, m, monthLength y m⟩ := by
  unfold getLastDayOfMonth
  have hs1 := (ymSucc_valid y m hm1 hm2).1
  have hs2 := (ymSucc_valid y m hm1 hm2).2
  have hfirst : mkDate y (m + 1) 1 = ⟨(ymSucc y m).1, (ymSucc y m).2, 1⟩ := by
    unfold mkDate
    have hp : normYM y (m + 1) = ymSucc y m := by
      rw [normYM_succ y m hm1 hm2]; unfold ymSucc; rfl
    rw [hp]
    exact dayNormAux_in_range _ _ _ _ (by omega)
      (by have := monthLength_pos (ymSucc y m).1 (ymSucc y m).2; omega)
  rw [hfirst]
  unfold addDate
  have h0 : (1 : Int) + -1 = 0 := by decide
  simp only [Int.add_zero, h0]
  rw [mkDate_low (ymSucc y m).1 (ymSucc y m).2 0 hs1 hs2 (by omega)
    (by have := monthLength_pos (ymPred (ymSucc y m).1 (ymSucc y m).2).1
          (ymPred (ymSucc y m).1 (ymSucc y m).2).2
        omega)]
  have hps := ymPred_ymSucc y m hm1 hm2
  rw [show (ymPred (ymSucc y m).1 (ymSucc y m).2).1 = y from by rw [hps]]
  rw [show (ymPred (ymSucc y m).1 (ymSucc y m).2).2 = m from by rw [hps]]
  rw [Int.zero_add]

theorem getDaysInMonth_eq (y m d0 : Int) (hm1 : 1 ≤ m) (hm2 : m ≤ 12) :
    getDaysInMonth ⟨y, m, d0⟩ = monthLength y m := by
  unfold getDaysInMonth
  rw [getLastDayOfMonth_eq y m d0 hm1 hm2]

/-- Propositional form of the lexicographic date order. -/
def DateLt (a b : Date) : Prop :=
  a.year < b.year ∨ (a.year = b.year ∧
    (a.month < b.month ∨ (a.month = b.month ∧ a.day < b.day)))

theorem dateBefore_eq_true_iff (a b : Date) :
    dateBefore a b = true ↔ DateLt a b := by
  unfold dateBefore DateLt
  simp [Bool.or_eq_true, Bool.and_eq_true, decide_eq_true_eq, beq_iff_eq]

theorem dateBefore_eq_false_iff (a b : Date) :
    dateBefore a b = false ↔ ¬ DateLt a b := by
  rw [← dateBefore_eq_true_iff]
  simp

/-- The month before the center month, as a (year, month) pair. -/
theorem mkDate_predMonth (y m d : Int) (hm1 : 1 ≤ m) (hm2 : m ≤ 12)
    (hd1 : 1 ≤ d) (hd2 : d ≤ monthLength (ymPred y m).1 (ymPred y m).2) :
    mkDate y (m - 1) d = ⟨(ymPred y m).1, (ymPred y m).2, d⟩ := by
  unfold mkDate
  have hp : normYM y (m - 1) = ymPred y m := by
    rw [normYM_pred y m hm1 hm2]; unfold ymPred; rfl
  rw [hp]
  have hfuel : d.natAbs + 400 = (d.natAbs + 399) + 1 := by omega
  rw [hfuel]
  exact dayNormAux_in_range _ _ _ _ hd1 hd2

/-- The month after the center month, as a (year, month) pair. -/
theorem mkDate_succMonth (y m d : Int) (hm1 : 1 ≤ m) (hm2 : m ≤ 12)
    (hd1 : 1 ≤ d) (hd2 : d ≤ monthLength (ymSucc y m).1 (ymSucc y m).2) :
    mkDate y (m + 1) d = ⟨(ymSucc y m).1, (ymSucc y m).2, d⟩ := by
  unfold mkDate
  have hp : normYM y (m + 1) = ymSucc y m := by
    rw [normYM_succ y m hm1 hm2]; unfold ymSucc; rfl
  rw [hp]
  have hfuel : d.natAbs + 400 = (d.natAbs + 399) + 1 := by omega
  rw [hfuel]
  exact dayNormAux_in_range _ _ _ _ hd1 hd2

/-- models.Calendar.GetPreviousMonth (models/calendar.go, staged inside
src/models/selection_test.go): CurrentMonth.AddDate(0, -1, 0), the center
month shifted back one month by Go calendar addition.  The models tests
pin the same behavior (August 1 maps to July 1, January 1 maps to
December 1 of the previous year). -/
def calGetPreviousMonth (currentMonth : Date) : Date :=
  addDate currentMonth 0 (-1) 0

/-- models.Calendar.GetNextMonth (models/calendar.go, staged inside
src/models/selection_test.go): CurrentMonth.AddDate(0, 1, 0). -/
def calGetNextMonth (currentMonth : Date) : Date :=
  addDate currentMonth 0 1 0

/-- The combined mutable state read and written by NavigationController:
models.Calendar.CurrentMonth and models.Selection.SelectedDate. -/
structure NavState where
  currentMonth : Date
  selectedDate : Date
deriving DecidableEq, Repr

/-- navigation.go isDateInVisibleRange (identical body to
models/selection.go isDateWithinBounds): first day of the previous month
through last day of the next month, inclusive. -/
def isDateInVisibleRange (s : NavState) (date : Date) : Bool :=
  let prevMonth := calGetPreviousMonth s.currentMonth
  let nextMonth := calGetNextMonth s.currentMonth
  let startRange := mkDate prevMonth.year prevMonth.month 1
  let endRange := getLastDayOfMonth nextMonth
  !(dateBefore date startRange) && !(dateAfter date endRange)

/-- models/selection.go Selection.IsWithinVisibleRange: the same range test
applied to the selected date. -/
def isWithinVisibleRange (s : NavState) : Bool :=
  isDateInVisibleRange s s.selectedDate

/-- navigation.go NavigateDayLeft (H key). -/
def navigateDayLeft (s : NavState) : NavState :=
  let newDate := addDate s.selectedDate 0 0 (-1)
  if isDateInVisibleRange s newDate then
    { s with selectedDate := newDate }
  else
    if s.selectedDate.day == 1 then
      let prevMonth := addDate s.selectedDate 0 (-1) 0
      let lastDayOfPrevMonth := getLastDayOfMonth prevMonth
      if isDateInVisibleRange s lastDayOfPrevMonth then
        { s with selectedDate := lastDayOfPrevMonth }
      else s
    else s

/-- navigation.go NavigateDayRight (L key). -/
def navigateDayRight (s : NavState) : NavState :=
  let newDate := addDate s.selectedDate 0 0 1
  if isDateInVisibleRange s newDate then
    { s with selectedDate := newDate }
  else
    let daysInCurrentMonth := getDaysInMonth s.selectedDate
    if s.selectedDate.day == daysInCurrentMonth then
      let nextMonth := addDate s.selectedDate 0 1 0
      let firstDayOfNextMonth := mkDate nextMonth.year nextMonth.month 1
      if isDateInVisibleRange s firstDayOfNextMonth then
        { s with selectedDate := firstDayOfNextMonth }
      else s
    else s

/-- navigation.go NavigateDayUp (K key). -/
def navigateDayUp (s : NavState) : NavState :=
  let newDate := addDate s.selectedDate 0 0 (-7)
  if isDateInVisibleRange s newDate then
    { s with selectedDate := newDate }
  else s

/-- navigation.go NavigateDayDown (J key). -/
def navigateDayDown (s : NavState) : NavState :=
  let newDate := addDate s.selectedDate 0 0 7
  if isDateInVisibleRange s newDate then
    { s with selectedDate := newDate }
  else s

/-- navigation.go adjustSelectionForMonthChange. -/
def adjustSelectionForMonthChange (s : NavState) (desiredDay : Int) : NavState :=
  if !(isWithinVisibleRange s) then
    let currentMonth := s.currentMonth
    let daysInMonth := getDaysInMonth currentMonth
    let actualDay := if desiredDay > daysInMonth then daysInMonth else desiredDay
    { s with selectedDate := mkDate currentMonth.year currentMonth.month actualDay }
  else s

/-- navigation.go NavigateMonthBackward (B key); the calendar shift is
models.Calendar.NavigateBackward, CurrentMonth.AddDate(0, -1, 0)
(models/calendar.go, staged inside src/models/selection_test.go). -/
def navigateMonthBackward (s : NavState) : NavState :=
  let selectedDay := s.selectedDate.day
  let s1 : NavState := { s with currentMonth := calGetPreviousMonth s.currentMonth }
  adjustSelectionForMonthChange s1 selectedDay

/-- navigation.go NavigateMonthForward (N key); the calendar shift is
models.Calendar.NavigateForward, CurrentMonth.AddDate(0, 1, 0). -/
def navigateMonthForward (s : NavState) : NavState :=
  let selectedDay := s.selectedDate.day
  let s1 : NavState := { s with currentMonth := calGetNextMonth s.currentMonth }
  adjustSelectionForMonthChange s1 selectedDay

/-- navigation.go SetSelection: commit only when the date is visible,
report success. -/
def setSelection (s : NavState) (date : Date) : NavState × Bool :=
  if isDateInVisibleRange s date then
    ({ s with selectedDate := date }, true)
  else (s, false)

/-- Modelled from the spec: NavigationController.ResetToCurrent (C key) is
called from main.go but its body is absent from src.  Spec section 4.4:
set centerMonth to the first day of the host's current month and
selectedDate to the host's current date. -/
def resetToCurrent (today : Date) : NavState :=
  { currentMonth := mkDate today.year today.month 1,
    selectedDate := today }

/-- Well-formed state: the center month is day-normalized with a real month
number, and the selection is a calendar date. -/
def WFState (s : NavState) : Prop :=
  1 ≤ s.currentMonth.month ∧ s.currentMonth.month ≤ 12 ∧
    s.currentMonth.day = 1 ∧ ValidDate s.selectedDate

instance (s : NavState) : Decidable (WFState s) := by
  unfold WFState; infer_instance

/-- terminal/input.go isValidTimeDigit: position-dependent acceptance of a
digit into the 4-slot HHMM buffer (the buffer is the Go strings.Builder
contents; all characters are ASCII digits so byte length and character
length agree). -/
def isValidTimeDigit (currentInput : String) (digit : Char) : Bool :=
  let inputLen := currentInput.length
  if inputLen ≥ 4 then false
  else if inputLen == 0 then
    digit == '1' || digit == '2'
  else if inputLen == 1 then
    let firstDigit := currentInput.data.headD ' '
    if firstDigit == '1' then
      decide ('0' ≤ digit) && decide (digit ≤ '9')
    else if firstDigit == '2' then
      decide ('0' ≤ digit) && decide (digit ≤ '3')
    else false
  else if inputLen == 2 then
    decide ('0' ≤ digit) && decide (digit ≤ '5')
  else if inputLen == 3 then
    decide ('0' ≤ digit) && decide (digit ≤ '9')
  else false

/-- terminal/input.go formatTimeDisplay: insert the colon and pad missing
trailing digits with underscores.  Go's byte slicing input[i:j] is taken on
the character list (all characters are one-byte digits). -/
def formatTimeDisplay (input : String) : String :=
  let inputLen := input.length
  if inputLen == 0 then ""
  else if inputLen == 1 then input ++ "_"
  else if inputLen == 2 then input ++ ":__"
  else if inputLen == 3 then
    String.mk (input.data.take 2) ++ ":" ++ String.mk (input.data.drop 2) ++ "_"
  else if inputLen ≥ 4 then
    String.mk (input.data.take 2) ++ ":" ++ String.mk ((input.data.drop 2).take 2)
  else input

/-- terminal/input.go GetTimeInput, Enter branch: result :=
formatTimeDisplay(buffer); the input loop returns (result, true) exactly
when len(result) == 5, otherwise it keeps polling. -/
def getTimeInputEnter (input : String) : Option String :=
  let result := formatTimeDisplay input
  if result.length == 5 then some result else none

/-- Go strconv.Atoi: an optional sign followed by at least one decimal
digit, nothing else.  Modelled with unbounded integers; Atoi's 64-bit
range error cannot distinguish any value this program compares against
0, 23 or 59. -/
def goAtoi (s : String) : Option Int :=
  let signed : Int × List Char :=
    match s.data with
    | '+' :: cs => (1, cs)
    | '-' :: cs => (-1, cs)
    | cs => (1, cs)
  if signed.2.isEmpty then none
  else if signed.2.all Char.isDigit then
    some (signed.1 * signed.2.foldl (fun a c => a * 10 + (c.toNat - '0'.toNat : Int)) 0)
  else none

/-- Helper for Go strings.Split(s, single character): cut the character
list at every separator. -/
def splitCharAux (sep : Char) : List Char → List Char → List String
  | [], acc => [String.mk acc.reverse]
  | c :: cs, acc =>
    if c = sep then String.mk acc.reverse :: splitCharAux sep cs []
    else splitCharAux sep cs (c :: acc)

/-- Go strings.Split(s, sep) for a one-character separator. -/
def goSplit (s : String) (sep : Char) : List String :=
  splitCharAux sep s.data []

/-- calendar/utils.go ValidateTimeString: split on every colon, require
exactly two parts, parse both with Atoi, and range-check hour 0..23 and
minute 0..59. -/
def validateTimeString (timeStr : String) : Bool :=
  let parts := goSplit timeStr ':'
  if parts.length != 2 then false
  else
    match goAtoi (parts.headD ""), goAtoi (parts.getD 1 "") with
    | some hour, some minute =>
      decide (hour ≥ 0) && decide (hour ≤ 23) &&
        decide (minute ≥ 0) && decide (minute ≤ 59)
    | _, _ => false

/-- Claim C7: the time-input validator rejects digit 5 after first digit 2,
accepts 1 then 9, and accepts the full sequence 1,4,3,0 which displays as
14:30 with the completion test (display length 5, the Enter test) true. -/
theorem c7_digit_acceptance :
    isValidTimeDigit "2" '5' = false ∧
    isValidTimeDigit "1" '9' = true ∧
    isValidTimeDigit "" '1' = true ∧
    isValidTimeDigit "1" '4' = true ∧
    isValidTimeDigit "14" '3' = true ∧
    isValidTimeDigit "143" '0' = true ∧
    formatTimeDisplay "1430" = "14:30" ∧
    getTimeInputEnter "1430" = some "14:30" := by decide

/-- Claim C3: evaluation of the Enter branch at the reachable two-digit
buffer 14.  The acceptance rules admit the buffer, and Enter then returns
the value 14:__ (display length 5) even though the buffer has only two
digits; the returned string is not a valid HH:MM time by the repository's
own ValidateTimeString.  The same happens at the three-digit buffer 143. -/
theorem c3_enter_completes_early :
    isValidTimeDigit "" '1' = true ∧
    isValidTimeDigit "1" '4' = true ∧
    getTimeInputEnter "14" = some "14:__" ∧
    validateTimeString "14:__" = false ∧
    isValidTimeDigit "14" '3' = true ∧
    getTimeInputEnter "143" = some "14:3_" ∧
    validateTimeString "14:3_" = false := by decide

/-- Claim C5, counterexample: with the window centered on August 2025 and
selection August 15, NavigateMonthBackward leaves the selection on
August 15 (still inside the new June-August visible range), not July 15 as
the claim states. -/
theorem c5_counterexample :
    (navigateMonthBackward ⟨⟨2025, 8, 1⟩, ⟨2025, 8, 15⟩⟩).selectedDate =
      ⟨2025, 8, 15⟩ ∧
    (navigateMonthBackward ⟨⟨2025, 8, 1⟩, ⟨2025, 8, 15⟩⟩).selectedDate ≠
      (⟨2025, 7, 15⟩ : Date) := by decide

/-- Claim C5, amended: the day-number preservation/clamping of a month
shift applies only when the shift pushes the selection out of the visible
range.  From center August 2025: selection August 15 is unchanged by
NavigateMonthBackward; selection September 15 becomes July 15 (day
preserved in the new center month); selection July 31 under
NavigateMonthForward is clamped to day 30 of the new 30-day center month
September. -/
theorem c5_day_preservation_amended :
    navigateMonthBackward ⟨⟨2025, 8, 1⟩, ⟨2025, 8, 15⟩⟩ =
      ⟨⟨2025, 7, 1⟩, ⟨2025, 8, 15⟩⟩ ∧
    navigateMonthBackward ⟨⟨2025, 8, 1⟩, ⟨2025, 9, 15⟩⟩ =
      ⟨⟨2025, 7, 1⟩, ⟨2025, 7, 15⟩⟩ ∧
    navigateMonthForward ⟨⟨2025, 8, 1⟩, ⟨2025, 7, 31⟩⟩ =
      ⟨⟨2025, 9, 1⟩, ⟨2025, 9, 30⟩⟩ := by decide

/-- Claim C8: week moves commit selectedDate plus or minus seven days
exactly when the candidate is visible and otherwise change nothing; the
center month is never touched and no error is produced (the operations
total and return only the state). -/
theorem c8_week_move_silent_rejection (s : NavState) :
    (isDateInVisibleRange s (addDate s.selectedDate 0 0 (-7)) = true →
      navigateDayUp s = { s with selectedDate := addDate s.selectedDate 0 0 (-7) }) ∧
    (isDateInVisibleRange s (addDate s.selectedDate 0 0 (-7)) = false →
      navigateDayUp s = s) ∧
    (isDateInVisibleRange s (addDate s.selectedDate 0 0 7) = true →
      navigateDayDown s = { s with selectedDate := addDate s.selectedDate 0 0 7 }) ∧
    (isDateInVisibleRange s (addDate s.selectedDate 0 0 7) = false →
      navigateDayDown s = s) ∧
    (navigateDayUp s).currentMonth = s.currentMonth ∧
    (navigateDayDown s).currentMonth = s.currentMonth := by
  unfold navigateDayUp navigateDayDown
  refine ⟨fun h => by simp [h], fun h => by simp [h],
    fun h => by simp [h], fun h => by simp [h], ?_, ?_⟩
  · by_cases h : isDateInVisibleRange s (addDate s.selectedDate 0 0 (-7)) = true <;>
      simp [h]
  · by_cases h : isDateInVisibleRange s (addDate s.selectedDate 0 0 7) = true <;>
      simp [h]

/-- Witness for c8_week_move_silent_rejection: from center August 2025,
selection August 15 moves up a week to August 8, while selection July 3
stays put because June 26 is outside the visible range. -/
theorem c8_week_move_witness :
    navigateDayUp ⟨⟨2025, 8, 1⟩, ⟨2025, 8, 15⟩⟩ = ⟨⟨2025, 8, 1⟩, ⟨2025, 8, 8⟩⟩ ∧
    navigateDayUp ⟨⟨2025, 8, 1⟩, ⟨2025, 7, 3⟩⟩ = ⟨⟨2025, 8, 1⟩, ⟨2025, 7, 3⟩⟩ := by
  constructor
  · have h := (c8_week_move_silent_rejection ⟨⟨2025, 8, 1⟩, ⟨2025, 8, 15⟩⟩).1
      (by decide)
    rw [h]; decide
  · exact (c8_week_move_silent_rejection ⟨⟨2025, 8, 1⟩, ⟨2025, 7, 3⟩⟩).2.1
      (by decide)

theorem ymSucc_ymPred (y m : Int) (h1 : 1 ≤ m) (h2 : m ≤ 12) :
    ymSucc (ymPred y m).1 (ymPred y m).2 = (y, m) := by
  unfold ymPred ymSucc
  split_ifs with ha hb hb <;> refine Prod.ext ?_ ?_ <;> simp_all <;> omega

theorem adjustSelection_currentMonth (s : NavState) (d : Int) :
    (adjustSelectionForMonthChange s d).currentMonth = s.currentMonth := by
  unfold adjustSelectionForMonthChange
  split_ifs <;> rfl

theorem navigateMonthForward_currentMonth (s : NavState) :
    (navigateMonthForward s).currentMonth = calGetNextMonth s.currentMonth := by
  unfold navigateMonthForward
  rw [adjustSelection_currentMonth]

theorem navigateMonthBackward_currentMonth (s : NavState) :
    (navigateMonthBackward s).currentMonth = calGetPreviousMonth s.currentMonth := by
  unfold navigateMonthBackward
  rw [adjustSelection_currentMonth]

theorem calGetNextMonth_day1 (y m : Int) (h1 : 1 ≤ m) (h2 : m ≤ 12) :
    calGetNextMonth ⟨y, m, 1⟩ = ⟨(ymSucc y m).1, (ymSucc y m).2, 1⟩ := by
  unfold calGetNextMonth addDate
  have hy : y + 0 = y := by omega
  have hd : (1 : Int) + 0 = 1 := by decide
  simp only [hy, hd]
  exact mkDate_succMonth y m 1 h1 h2 (by omega)
    (by have := monthLength_pos (ymSucc y m).1 (ymSucc y m).2; omega)

theorem calGetPreviousMonth_day1 (y m : Int) (h1 : 1 ≤ m) (h2 : m ≤ 12) :
    calGetPreviousMonth ⟨y, m, 1⟩ = ⟨(ymPred y m).1, (ymPred y m).2, 1⟩ := by
  unfold calGetPreviousMonth addDate
  have hy : y + 0 = y := by omega
  have hm : m + -1 = m - 1 := by omega
  have hd : (1 : Int) + 0 = 1 := by decide
  simp only [hy, hm, hd]
  exact mkDate_predMonth y m 1 h1 h2 (by omega)
    (by have := monthLength_pos (ymPred y m).1 (ymPred y m).2; omega)

/-- Claim C6: NavigateMonthForward followed by NavigateMonthBackward (and
backward followed by forward) restores the original center month exactly,
for any day-normalized center month including across year boundaries.
The calendar shift is models.Calendar.NavigateForward/NavigateBackward,
CurrentMonth.AddDate(0, 1, 0) and AddDate(0, -1, 0). -/
theorem c6_month_shift_roundtrip (s : NavState)
    (h1 : 1 ≤ s.currentMonth.month) (h2 : s.currentMonth.month ≤ 12)
    (h3 : s.currentMonth.day = 1) :
    (navigateMonthBackward (navigateMonthForward s)).currentMonth =
      s.currentMonth ∧
    (navigateMonthForward (navigateMonthBackward s)).currentMonth =
      s.currentMonth := by
  obtain ⟨⟨cy, cm, cd⟩, sel⟩ := s
  simp only at h1 h2 h3
  subst h3
  constructor
  · rw [navigateMonthBackward_currentMonth, navigateMonthForward_currentMonth]
    simp only
    rw [calGetNextMonth_day1 cy cm h1 h2]
    rw [calGetPreviousMonth_day1 _ _ (ymSucc_valid cy cm h1 h2).1
      (ymSucc_valid cy cm h1 h2).2]
    have hps := ymPred_ymSucc cy cm h1 h2
    rw [Prod.ext_iff] at hps
    rw [hps.1, hps.2]
  · rw [navigateMonthForward_currentMonth, navigateMonthBackward_currentMonth]
    simp only
    rw [calGetPreviousMonth_day1 cy cm h1 h2]
    rw [calGetNextMonth_day1 _ _ (ymPred_valid cy cm h1 h2).1
      (ymPred_valid cy cm h1 h2).2]
    have hps := ymSucc_ymPred cy cm h1 h2
    rw [Prod.ext_iff] at hps
    rw [hps.1, hps.2]

/-- Witness for c6_month_shift_roundtrip at December 2025, exercising the
year boundary in both directions. -/
theorem c6_month_shift_witness :
    (navigateMonthBackward (navigateMonthForward
      ⟨⟨2025, 12, 1⟩, ⟨2025, 12, 15⟩⟩)).currentMonth = ⟨2025, 12, 1⟩ ∧
    (navigateMonthForward (navigateMonthBackward
      ⟨⟨2025, 12, 1⟩, ⟨2025, 12, 15⟩⟩)).currentMonth = ⟨2025, 12, 1⟩ :=
  c6_month_shift_roundtrip ⟨⟨2025, 12, 1⟩, ⟨2025, 12, 15⟩⟩
    (by decide) (by decide) (by decide)

theorem isWithin_update (s : NavState) (x : Date) :
    isWithinVisibleRange { s with selectedDate := x } = isDateInVisibleRange s x :=
  rfl

theorem isWithin_eq (c x sel : Date) :
    isWithinVisibleRange ⟨c, x⟩ = isDateInVisibleRange ⟨c, sel⟩ x :=
  rfl

/-- Any day of the center month lies inside the visible range. -/
theorem inVisibleRange_center (cy cm dd : Int) (h1 : 1 ≤ cm) (h2 : cm ≤ 12)
    (hd1 : 1 ≤ dd) (hd2 : dd ≤ monthLength cy cm) (sel : Date) :
    isDateInVisibleRange ⟨⟨cy, cm, 1⟩, sel⟩ ⟨cy, cm, dd⟩ = true := by
  unfold isDateInVisibleRange
  simp only
  rw [calGetPreviousMonth_day1 cy cm h1 h2, calGetNextMonth_day1 cy cm h1 h2]
  simp only
  rw [mkDate_valid _ _ _ (ymPred_valid cy cm h1 h2).1 (ymPred_valid cy cm h1 h2).2
    (by omega)
    (by have := monthLength_pos (ymPred cy cm).1 (ymPred cy cm).2; omega)]
  rw [getLastDayOfMonth_eq _ _ _ (ymSucc_valid cy cm h1 h2).1
    (ymSucc_valid cy cm h1 h2).2]
  unfold dateAfter
  simp only [Bool.and_eq_true, Bool.not_eq_true']
  rw [dateBefore_eq_false_iff, dateBefore_eq_false_iff]
  unfold DateLt ymPred ymSucc
  constructor
  · split_ifs with h <;> simp_all <;> omega
  · split_ifs with h <;> simp_all

/-- adjustSelectionForMonthChange establishes the visibility invariant
whenever the (new) center month is well formed and the desired day is
positive. -/
theorem adjust_establishes (s : NavState) (dd : Int)
    (h1 : 1 ≤ s.currentMonth.month) (h2 : s.currentMonth.month ≤ 12)
    (h3 : s.currentMonth.day = 1) (hdd : 1 ≤ dd) :
    isWithinVisibleRange (adjustSelectionForMonthChange s dd) = true := by
  unfold adjustSelectionForMonthChange
  by_cases hin : isWithinVisibleRange s = true
  · simp only [hin, Bool.not_true, Bool.false_eq_true, if_false]
  · have hin' : isWithinVisibleRange s = false := by simpa using hin
    simp only [hin', Bool.not_false, if_true]
    obtain ⟨⟨cy, cm, cd⟩, sel⟩ := s
    simp only at h1 h2 h3 ⊢
    subst h3
    rw [isWithin_eq _ _ sel]
    rw [getDaysInMonth_eq cy cm 1 h1 h2]
    have hml := monthLength_pos cy cm
    by_cases hgt : dd > monthLength cy cm
    · simp only [hgt, if_true]
      rw [mkDate_valid cy cm _ h1 h2 (by omega) (by omega)]
      exact inVisibleRange_center cy cm _ h1 h2 (by omega) (by omega) sel
    · simp only [hgt, if_false]
      rw [mkDate_valid cy cm _ h1 h2 (by omega) (by omega)]
      exact inVisibleRange_center cy cm _ h1 h2 (by omega) (by omega) sel

theorem navigateDayLeft_preserves (s : NavState)
    (hsel : isWithinVisibleRange s = true) :
    isWithinVisibleRange (navigateDayLeft s) = true := by
  unfold navigateDayLeft
  by_cases hA : isDateInVisibleRange s (addDate s.selectedDate 0 0 (-1)) = true
  · simp only [hA, if_true]
    exact hA
  · have hA' : isDateInVisibleRange s (addDate s.selectedDate 0 0 (-1)) = false := by
      simpa using hA
    simp only [hA', Bool.false_eq_true, if_false]
    by_cases hB : (s.selectedDate.day == 1) = true
    · simp only [hB, if_true]
      by_cases hC : isDateInVisibleRange s
          (getLastDayOfMonth (addDate s.selectedDate 0 (-1) 0)) = true
      · simp only [hC, if_true]
        exact hC
      · have hC' : isDateInVisibleRange s
            (getLastDayOfMonth (addDate s.selectedDate 0 (-1) 0)) = false := by
          simpa using hC
        simp only [hC', Bool.false_eq_true, if_false]
        exact hsel
    · have hB' : (s.selectedDate.day == 1) = false := by simpa using hB
      simp only [hB', Bool.false_eq_true, if_false]
      exact hsel

theorem navigateDayRight_preserves (s : NavState)
    (hsel : isWithinVisibleRange s = true) :
    isWithinVisibleRange (navigateDayRight s) = true := by
  unfold navigateDayRight
  by_cases hA : isDateInVisibleRange s (addDate s.selectedDate 0 0 1) = true
  · simp only [hA, if_true]
    exact hA
  · have hA' : isDateInVisibleRange s (addDate s.selectedDate 0 0 1) = false := by
      simpa using hA
    simp only [hA', Bool.false_eq_true, if_false]
    by_cases hB : (s.selectedDate.day == getDaysInMonth s.selectedDate) = true
    · simp only [hB, if_true]
      by_cases hC : isDateInVisibleRange s
          (mkDate (addDate s.selectedDate 0 1 0).year
            (addDate s.selectedDate 0 1 0).month 1) = true
      · simp only [hC, if_true]
        exact hC
      · have hC' : isDateInVisibleRange s
            (mkDate (addDate s.selectedDate 0 1 0).year
              (addDate s.selectedDate 0 1 0).month 1) = false := by
          simpa using hC
        simp only [hC', Bool.false_eq_true, if_false]
        exact hsel
    · have hB' : (s.selectedDate.day == getDaysInMonth s.selectedDate) = false := by
        simpa using hB
      simp only [hB', Bool.false_eq_true, if_false]
      exact hsel

theorem navigateDayUp_preserves (s : NavState)
    (hsel : isWithinVisibleRange s = true) :
    isWithinVisibleRange (navigateDayUp s) = true := by
  unfold navigateDayUp
  by_cases hA : isDateInVisibleRange s (addDate s.selectedDate 0 0 (-7)) = true
  · simp only [hA, if_true]
    exact hA
  · have hA' : isDateInVisibleRange s (addDate s.selectedDate 0 0 (-7)) = false := by
      simpa using hA
    simp only [hA', Bool.false_eq_true, if_false]
    exact hsel

theorem navigateDayDown_preserves (s : NavState)
    (hsel : isWithinVisibleRange s = true) :
    isWithinVisibleRange (navigateDayDown s) = true := by
  unfold navigateDayDown
  by_cases hA : isDateInVisibleRange s (addDate s.selectedDate 0 0 7) = true
  · simp only [hA, if_true]
    exact hA
  · have hA' : isDateInVisibleRange s (addDate s.selectedDate 0 0 7) = false := by
      simpa using hA
    simp only [hA', Bool.false_eq_true, if_false]
    exact hsel

/-- Claim C1: for every well-formed state whose selection is inside the
visible range, each NavigationController operation leaves the selection
inside the (possibly shifted) visible range.  ResetToCurrent is modelled
from the spec because only its call site appears in src; every other
operation, the Calendar month shift included, is embedded from the
sources. -/
theorem c1_selection_visibility (s : NavState) (hwf : WFState s)
    (hsel : isWithinVisibleRange s = true) (d today : Date)
    (htoday : ValidDate today) :
    isWithinVisibleRange (navigateDayLeft s) = true ∧
    isWithinVisibleRange (navigateDayRight s) = true ∧
    isWithinVisibleRange (navigateDayUp s) = true ∧
    isWithinVisibleRange (navigateDayDown s) = true ∧
    isWithinVisibleRange (navigateMonthBackward s) = true ∧
    isWithinVisibleRange (navigateMonthForward s) = true ∧
    isWithinVisibleRange (setSelection s d).1 = true ∧
    isWithinVisibleRange (resetToCurrent today) = true := by
  obtain ⟨h1, h2, h3, hval⟩ := hwf
  refine ⟨navigateDayLeft_preserves s hsel, navigateDayRight_preserves s hsel,
    navigateDayUp_preserves s hsel, navigateDayDown_preserves s hsel,
    ?_, ?_, ?_, ?_⟩
  · unfold navigateMonthBackward
    obtain ⟨⟨cy, cm, cd⟩, sel⟩ := s
    simp only at h1 h2 h3 hval ⊢
    subst h3
    rw [calGetPreviousMonth_day1 cy cm h1 h2]
    exact adjust_establishes _ _ (ymPred_valid cy cm h1 h2).1
      (ymPred_valid cy cm h1 h2).2 rfl hval.2.2.1
  · unfold navigateMonthForward
    obtain ⟨⟨cy, cm, cd⟩, sel⟩ := s
    simp only at h1 h2 h3 hval ⊢
    subst h3
    rw [calGetNextMonth_day1 cy cm h1 h2]
    exact adjust_establishes _ _ (ymSucc_valid cy cm h1 h2).1
      (ymSucc_valid cy cm h1 h2).2 rfl hval.2.2.1
  · unfold setSelection
    by_cases hD : isDateInVisibleRange s d = true
    · simp only [hD, if_true]
      exact hD
    · have hD' : isDateInVisibleRange s d = false := by simpa using hD
      simp only [hD', Bool.false_eq_true, if_false]
      exact hsel
  · obtain ⟨ty, tm, td⟩ := today
    obtain ⟨g1, g2, g3, g4⟩ := htoday
    simp only at g1 g2 g3 g4
    unfold resetToCurrent
    simp only
    rw [mkDate_valid ty tm 1 g1 g2 (by omega)
      (by have := monthLength_pos ty tm; omega)]
    rw [show isWithinVisibleRange ⟨⟨ty, tm, 1⟩, ⟨ty, tm, td⟩⟩ =
        isDateInVisibleRange ⟨⟨ty, tm, 1⟩, ⟨ty, tm, td⟩⟩ ⟨ty, tm, td⟩ from rfl]
    exact inVisibleRange_center ty tm td g1 g2 g3 g4 _

/-- Witness for c1_selection_visibility at the August 2025 state with
selection August 15, target date September 3 and host date August 20,
checking the month-backward conjunct concretely. -/
theorem c1_selection_visibility_witness :
    isWithinVisibleRange (navigateMonthBackward
      ⟨⟨2025, 8, 1⟩, ⟨2025, 8, 15⟩⟩) = true ∧
    isWithinVisibleRange ((setSelection
      ⟨⟨2025, 8, 1⟩, ⟨2025, 8, 15⟩⟩ ⟨2025, 9, 3⟩).1) = true ∧
    isWithinVisibleRange (resetToCurrent ⟨2025, 8, 20⟩) = true := by
  have h := c1_selection_visibility ⟨⟨2025, 8, 1⟩, ⟨2025, 8, 15⟩⟩
    (by decide) (by decide) ⟨2025, 9, 3⟩ ⟨2025, 8, 20⟩ (by decide)
  exact ⟨h.2.2.2.2.1, h.2.2.2.2.2.2.1, h.2.2.2.2.2.2.2⟩

/-- Characterization of the visible range test for a well-formed center
month: not before the first day of the previous month and not after the
last day of the next month. -/
theorem inRange_iff (cy cm : Int) (h1 : 1 ≤ cm) (h2 : cm ≤ 12) (sel x : Date) :
    isDateInVisibleRange ⟨⟨cy, cm, 1⟩, sel⟩ x = true ↔
      (¬ DateLt x ⟨(ymPred cy cm).1, (ymPred cy cm).2, 1⟩ ∧
        ¬ DateLt ⟨(ymSucc cy cm).1, (ymSucc cy cm).2,
          monthLength (ymSucc cy cm).1 (ymSucc cy cm).2⟩ x) := by
  unfold isDateInVisibleRange
  simp only
  rw [calGetPreviousMonth_day1 cy cm h1 h2, calGetNextMonth_day1 cy cm h1 h2]
  simp only
  rw [mkDate_valid _ _ _ (ymPred_valid cy cm h1 h2).1 (ymPred_valid cy cm h1 h2).2
    (by omega)
    (by have := monthLength_pos (ymPred cy cm).1 (ymPred cy cm).2; omega)]
  rw [getLastDayOfMonth_eq _ _ _ (ymSucc_valid cy cm h1 h2).1
    (ymSucc_valid cy cm h1 h2).2]
  unfold dateAfter
  simp only [Bool.and_eq_true, Bool.not_eq_true']
  rw [dateBefore_eq_false_iff, dateBefore_eq_false_iff]

theorem dateLt_trans {a b c : Date} (hab : DateLt a b) (hbc : DateLt b c) :
    DateLt a c := by
  unfold DateLt at *
  omega

/-- Any day of month (y, m) is lexicographically before any day of the
following month. -/
theorem dateLt_succMonth (y m d e : Int) (h1 : 1 ≤ m) (h2 : m ≤ 12) :
    DateLt ⟨y, m, d⟩ ⟨(ymSucc y m).1, (ymSucc y m).2, e⟩ := by
  unfold DateLt ymSucc
  split_ifs with h <;> simp_all <;> omega

theorem mkDate_monthSucc (y m d : Int) (h1 : 1 ≤ m) (h2 : m ≤ 12) :
    mkDate y (m + 1) d = mkDate (ymSucc y m).1 (ymSucc y m).2 d := by
  unfold mkDate
  have hp : normYM y (m + 1) = ymSucc y m := by
    rw [normYM_succ y m h1 h2]; unfold ymSucc; rfl
  rw [hp, normYM_eq_self _ _ (ymSucc_valid y m h1 h2).1 (ymSucc_valid y m h1 h2).2]

/-- From day 1 of a month, the last day of the previous month computed by
the NavigateDayLeft fallback equals the single-day step backwards. -/
theorem lastDayPrev_eq (y m : Int) (h1 : 1 ≤ m) (h2 : m ≤ 12) :
    getLastDayOfMonth (addDate ⟨y, m, 1⟩ 0 (-1) 0) = addDate ⟨y, m, 1⟩ 0 0 (-1) := by
  unfold addDate
  simp only
  have e1 : y + 0 = y := by omega
  have e2 : m + -1 = m - 1 := by omega
  have e3 : (1 : Int) + 0 = 1 := by decide
  have e4 : m + 0 = m := by omega
  have e5 : (1 : Int) + -1 = 0 := by decide
  rw [e1, e2, e3, e4, e5]
  have hpp1 := (ymPred_valid y m h1 h2).1
  have hpp2 := (ymPred_valid y m h1 h2).2
  have hplen := monthLength_pos (ymPred y m).1 (ymPred y m).2
  rw [mkDate_predMonth y m 1 h1 h2 (by omega) (by omega)]
  rw [getLastDayOfMonth_eq _ _ _ hpp1 hpp2]
  rw [mkDate_low y m 0 h1 h2 (by omega) (by omega)]
  rw [show (0 : Int) + monthLength (ymPred y m).1 (ymPred y m).2 =
    monthLength (ymPred y m).1 (ymPred y m).2 from by omega]

/-- From the last day of a month, one day forward is the first day of the
next month. -/
theorem addDay_on_last (y m : Int) (h1 : 1 ≤ m) (h2 : m ≤ 12) :
    addDate ⟨y, m, monthLength y m⟩ 0 0 1 =
      ⟨(ymSucc y m).1, (ymSucc y m).2, 1⟩ := by
  unfold addDate
  simp only
  have e1 : y + 0 = y := by omega
  have e4 : m + 0 = m := by omega
  rw [e1, e4]
  have hnlen := monthLength_pos (ymSucc y m).1 (ymSucc y m).2
  rw [mkDate_high y m _ h1 h2 (by omega) (by omega)]
  rw [show monthLength y m + 1 - monthLength y m = 1 from by omega]

/-- Specification-side simple day-step rule from claim C10: commit
selectedDate plus delta days exactly when the candidate is within the
visible range, otherwise leave the state unchanged. -/
def simpleDayMove (s : NavState) (delta : Int) : NavState :=
  let candidate := addDate s.selectedDate 0 0 delta
  if isDateInVisibleRange s candidate then { s with selectedDate := candidate }
  else s

/-- Claim C10, counterexample: with the window centered on April 2025 and
the (out-of-range) selection January 31 2025, NavigateDayRight commits
March 1 2025 — the fallback computes time.Date of February 31, which
normalizes to March 3, so the first of the month after next — while the
simple one-day rule leaves the state unchanged, refuting the claimed
equivalence for arbitrary day-normalized selection states. -/
theorem c10_counterexample :
    navigateDayRight ⟨⟨2025, 4, 1⟩, ⟨2025, 1, 31⟩⟩ ≠
      simpleDayMove ⟨⟨2025, 4, 1⟩, ⟨2025, 1, 31⟩⟩ 1 ∧
    navigateDayRight ⟨⟨2025, 4, 1⟩, ⟨2025, 1, 31⟩⟩ =
      ⟨⟨2025, 4, 1⟩, ⟨2025, 3, 1⟩⟩ ∧
    simpleDayMove ⟨⟨2025, 4, 1⟩, ⟨2025, 1, 31⟩⟩ 1 =
      ⟨⟨2025, 4, 1⟩, ⟨2025, 1, 31⟩⟩ := by decide

/-- Claim C10, amended: for well-formed states satisfying the visibility
invariant, NavigateDayLeft and NavigateDayRight are extensionally equal to
the simple one-day rule; from the last day of a month the right fallback can
compute a date one month further (Go normalization of an overflowed month),
but from an in-range selection that candidate is never visible, so the two
functions agree on every state the application can reach. -/
theorem c10_simple_rule_equivalence (s : NavState) (hwf : WFState s)
    (hsel : isWithinVisibleRange s = true) :
    navigateDayLeft s = simpleDayMove s (-1) ∧
    navigateDayRight s = simpleDayMove s 1 := by
  obtain ⟨h1, h2, h3, hval⟩ := hwf
  obtain ⟨⟨cy, cm, cd⟩, ⟨sy, sm, sd⟩⟩ := s
  simp only at h1 h2 h3
  subst h3
  obtain ⟨g1, g2, g3, g4⟩ := hval
  simp only at g1 g2 g3 g4
  constructor
  · unfold navigateDayLeft simpleDayMove
    by_cases hA : isDateInVisibleRange ⟨⟨cy, cm, 1⟩, ⟨sy, sm, sd⟩⟩
        (addDate ⟨sy, sm, sd⟩ 0 0 (-1)) = true
    · simp only [hA, if_true]
    · have hA' : isDateInVisibleRange ⟨⟨cy, cm, 1⟩, ⟨sy, sm, sd⟩⟩
          (addDate ⟨sy, sm, sd⟩ 0 0 (-1)) = false := by simpa using hA
      simp only [hA', Bool.false_eq_true, if_false]
      by_cases hB : ((⟨sy, sm, sd⟩ : Date).day == 1) = true
      · have hsd : sd = 1 := by simpa using hB
        subst hsd
        simp only [hB, if_true]
        rw [lastDayPrev_eq sy sm g1 g2]
        simp only [hA', Bool.false_eq_true, if_false]
      · have hB' : ((⟨sy, sm, sd⟩ : Date).day == 1) = false := by simpa using hB
        simp only [hB', Bool.false_eq_true, if_false]
  · unfold navigateDayRight simpleDayMove
    by_cases hA : isDateInVisibleRange ⟨⟨cy, cm, 1⟩, ⟨sy, sm, sd⟩⟩
        (addDate ⟨sy, sm, sd⟩ 0 0 1) = true
    · simp only [hA, if_true]
    · have hA' : isDateInVisibleRange ⟨⟨cy, cm, 1⟩, ⟨sy, sm, sd⟩⟩
          (addDate ⟨sy, sm, sd⟩ 0 0 1) = false := by simpa using hA
      simp only [hA', Bool.false_eq_true, if_false]
      by_cases hB : ((⟨sy, sm, sd⟩ : Date).day ==
          getDaysInMonth ⟨sy, sm, sd⟩) = true
      · have hsd : sd = monthLength sy sm := by
          have := getDaysInMonth_eq sy sm sd g1 g2
          have hb : sd = getDaysInMonth ⟨sy, sm, sd⟩ := by simpa using hB
          omega
        subst hsd
        simp only [hB, if_true]
        have hnn1 := (ymSucc_valid sy sm g1 g2).1
        have hnn2 := (ymSucc_valid sy sm g1 g2).2
        have hcand := addDay_on_last sy sm g1 g2
        rw [hcand] at hA'
        have hselP := (inRange_iff cy cm h1 h2 ⟨sy, sm, monthLength sy sm⟩
          ⟨sy, sm, monthLength sy sm⟩).mp hsel
        have hAP : ¬ (¬ DateLt ⟨(ymSucc sy sm).1, (ymSucc sy sm).2, 1⟩
              ⟨(ymPred cy cm).1, (ymPred cy cm).2, 1⟩ ∧
            ¬ DateLt ⟨(ymSucc cy cm).1, (ymSucc cy cm).2,
                monthLength (ymSucc cy cm).1 (ymSucc cy cm).2⟩
              ⟨(ymSucc sy sm).1, (ymSucc sy sm).2, 1⟩) := by
          rw [← inRange_iff cy cm h1 h2 ⟨sy, sm, monthLength sy sm⟩
            ⟨(ymSucc sy sm).1, (ymSucc sy sm).2, 1⟩]
          simp [hA']
        have hlt2 : DateLt ⟨(ymSucc cy cm).1, (ymSucc cy cm).2,
            monthLength (ymSucc cy cm).1 (ymSucc cy cm).2⟩
            ⟨(ymSucc sy sm).1, (ymSucc sy sm).2, 1⟩ := by
          by_cases hl1 : DateLt ⟨(ymSucc sy sm).1, (ymSucc sy sm).2, 1⟩
              ⟨(ymPred cy cm).1, (ymPred cy cm).2, 1⟩
          · exact absurd (dateLt_trans
              (dateLt_succMonth sy sm _ 1 g1 g2) hl1) hselP.1
          · by_cases hl2 : DateLt ⟨(ymSucc cy cm).1, (ymSucc cy cm).2,
                monthLength (ymSucc cy cm).1 (ymSucc cy cm).2⟩
                ⟨(ymSucc sy sm).1, (ymSucc sy sm).2, 1⟩
            · exact hl2
            · exact absurd ⟨hl1, hl2⟩ hAP
        by_cases hle : monthLength sy sm ≤
            monthLength (ymSucc sy sm).1 (ymSucc sy sm).2
        · have hnm : addDate ⟨sy, sm, monthLength sy sm⟩ 0 1 0 =
              ⟨(ymSucc sy sm).1, (ymSucc sy sm).2, monthLength sy sm⟩ := by
            unfold addDate
            simp only
            rw [show sy + 0 = sy from by omega,
              show monthLength sy sm + 0 = monthLength sy sm from by omega]
            rw [mkDate_monthSucc sy sm _ g1 g2]
            exact mkDate_valid _ _ _ hnn1 hnn2
              (by have := monthLength_pos sy sm; omega) hle
          rw [hnm]
          simp only
          rw [mkDate_valid _ _ 1 hnn1 hnn2 (by omega)
            (by have := monthLength_pos (ymSucc sy sm).1 (ymSucc sy sm).2; omega)]
          simp only [hA', Bool.false_eq_true, if_false]
        · have hqq1 := (ymSucc_valid (ymSucc sy sm).1 (ymSucc sy sm).2 hnn1 hnn2).1
          have hqq2 := (ymSucc_valid (ymSucc sy sm).1 (ymSucc sy sm).2 hnn1 hnn2).2
          have hnm : addDate ⟨sy, sm, monthLength sy sm⟩ 0 1 0 =
              ⟨(ymSucc (ymSucc sy sm).1 (ymSucc sy sm).2).1,
                (ymSucc (ymSucc sy sm).1 (ymSucc sy sm).2).2,
                monthLength sy sm -
                  monthLength (ymSucc sy sm).1 (ymSucc sy sm).2⟩ := by
            unfold addDate
            simp only
            rw [show sy + 0 = sy from by omega,
              show monthLength sy sm + 0 = monthLength sy sm from by omega]
            rw [mkDate_monthSucc sy sm _ g1 g2]
            exact mkDate_high _ _ _ hnn1 hnn2 (by omega)
              (by have := monthLength_pos
                    (ymSucc (ymSucc sy sm).1 (ymSucc sy sm).2).1
                    (ymSucc (ymSucc sy sm).1 (ymSucc sy sm).2).2
                  have := monthLength_pos (ymSucc sy sm).1 (ymSucc sy sm).2
                  have := monthLength_le sy sm
                  omega)
          rw [hnm]
          simp only
          rw [mkDate_valid _ _ 1 hqq1 hqq2 (by omega)
            (by have := monthLength_pos
                  (ymSucc (ymSucc sy sm).1 (ymSucc sy sm).2).1
                  (ymSucc (ymSucc sy sm).1 (ymSucc sy sm).2).2
                omega)]
          have hfb : isDateInVisibleRange ⟨⟨cy, cm, 1⟩, ⟨sy, sm, monthLength sy sm⟩⟩
              ⟨(ymSucc (ymSucc sy sm).1 (ymSucc sy sm).2).1,
                (ymSucc (ymSucc sy sm).1 (ymSucc sy sm).2).2, 1⟩ = false := by
            have hnot : ¬ (isDateInVisibleRange
                ⟨⟨cy, cm, 1⟩, ⟨sy, sm, monthLength sy sm⟩⟩
                ⟨(ymSucc (ymSucc sy sm).1 (ymSucc sy sm).2).1,
                  (ymSucc (ymSucc sy sm).1 (ymSucc sy sm).2).2, 1⟩ = true) := by
              intro hq
              exact ((inRange_iff cy cm h1 h2 _ _).mp hq).2
                (dateLt_trans hlt2 (dateLt_succMonth _ _ 1 1 hnn1 hnn2))
            simpa using hnot
          simp only [hfb, Bool.false_eq_true, if_false]
      · have hB' : ((⟨sy, sm, sd⟩ : Date).day ==
            getDaysInMonth ⟨sy, sm, sd⟩) = false := by simpa using hB
        simp only [hB', Bool.false_eq_true, if_false]

/-- Witness for c10_simple_rule_equivalence at the August 2025 state with
selection August 31: both the controller move and the simple rule step to
September 1. -/
theorem c10_simple_rule_witness :
    navigateDayLeft ⟨⟨2025, 8, 1⟩, ⟨2025, 8, 31⟩⟩ =
      simpleDayMove ⟨⟨2025, 8, 1⟩, ⟨2025, 8, 31⟩⟩ (-1) ∧
    navigateDayRight ⟨⟨2025, 8, 1⟩, ⟨2025, 8, 31⟩⟩ =
      simpleDayMove ⟨⟨2025, 8, 1⟩, ⟨2025, 8, 31⟩⟩ 1 :=
  c10_simple_rule_equivalence ⟨⟨2025, 8, 1⟩, ⟨2025, 8, 31⟩⟩
    (by decide) (by decide)

/-- Time-of-day of an event: the hour and minute of the time.Time value
produced by calendar/utils.go ParseTime ("15:04"); all such values share
the same date fields, so Before/Equal compare (hour, minute)
lexicographically. -/
structure TimeOfDay where
  hour : Int
  minute : Int
deriving DecidableEq, Repr, Inhabited

/-- models.Event (models/event.go is represented by its use sites in src:
Date, Time and Description fields). -/
structure Event where
  date : Date
  time : TimeOfDay
  description : String
deriving DecidableEq, Repr, Inhabited

/-- Go Time.Before on two ParseTime values: lexicographic on
(hour, minute). -/
def timeBefore (a b : TimeOfDay) : Bool :=
  a.hour < b.hour || (a.hour == b.hour && a.minute < b.minute)

/-- The exact-match test used by events/manager.go DeleteEvent and
EditEvent: Date.Equal, Time.Equal and string equality of descriptions. -/
def eventMatches (a b : Event) : Bool :=
  a.date == b.date && a.time == b.time && a.description == b.description

-- ---------------------------------------------------------------------
-- Go sort.Slice (go/src/sort/zsortfunc.go, Go 1.19 and later: pdqsort).
-- The README requires Go 1.19+, whose sort.Slice is pattern-defeating
-- quicksort over a lessSwap pair.  Loops are written with explicit fuel;
-- the driver returns none if fuel runs out, so every proved evaluation
-- certifies that the real loops terminated the same way.
-- ---------------------------------------------------------------------

section GoSort

variable {α : Type} [Inhabited α]

/-- data.Swap of Go's lessSwap: exchange two slice elements.  Out-of-range
indices would crash the Go program and are never reached; the model leaves
the array unchanged there so that the function is total. -/
def goSwap (arr : Array α) (i j : Nat) : Array α :=
  if hi : i < arr.size then
    if hj : j < arr.size then arr.swap ⟨i, hi⟩ ⟨j, hj⟩ else arr
  else arr

/-- Inner loop of insertionSort_func: move element j left while it is less
than its predecessor. -/
def insertionInner (less : α → α → Bool) (a : Nat) : Nat → Array α → Array α
  | 0, arr => arr
  | j + 1, arr =>
    if j + 1 > a && less (arr.get! (j + 1)) (arr.get! j) then
      insertionInner less a j (goSwap arr (j + 1) j)
    else arr

/-- Outer loop of insertionSort_func, i from a+1 to b-1. -/
def insertionSortAux (less : α → α → Bool) (a b : Nat) :
    Nat → Array α → Nat → Array α
  | 0, arr, _ => arr
  | fuel + 1, arr, i =>
    if i < b then
      insertionSortAux less a b fuel (insertionInner less a i arr) (i + 1)
    else arr

/-- insertionSort_func: sorts data[a:b] using insertion sort. -/
def insertionSortFunc (less : α → α → Bool) (arr : Array α) (a b : Nat) :
    Array α :=
  insertionSortAux less a b (b - a + 1) arr (a + 1)

/-- Loop of siftDown_func.  root strictly increases, so hi + 2 fuel always
suffices. -/
def siftDownAux (less : α → α → Bool) (hi first : Nat) :
    Nat → Array α → Nat → Array α
  | 0, arr, _ => arr
  | fuel + 1, arr, root =>
    let child0 := 2 * root + 1
    if child0 ≥ hi then arr
    else
      let child :=
        if child0 + 1 < hi &&
            less (arr.get! (first + child0)) (arr.get! (first + child0 + 1)) then
          child0 + 1
        else child0
      if !(less (arr.get! (first + root)) (arr.get! (first + child))) then arr
      else siftDownAux less hi first fuel
        (goSwap arr (first + root) (first + child)) child

/-- siftDown_func: implements the heap property on data[lo:hi]; first is
the offset of the root. -/
def siftDownFunc (less : α → α → Bool) (arr : Array α) (lo hi first : Nat) :
    Array α :=
  siftDownAux less hi first (hi + 2) arr lo

/-- First loop of heapSort_func: build the heap, i from (hi-1)/2 down
to 0 (the argument counts remaining iterations, i + 1). -/
def heapBuild (less : α → α → Bool) (hi first : Nat) : Nat → Array α → Array α
  | 0, arr => arr
  | i + 1, arr => heapBuild less hi first i (siftDownFunc less arr i hi first)

/-- Second loop of heapSort_func: pop elements, largest first, i from hi-1
down to 0. -/
def heapPop (less : α → α → Bool) (first : Nat) : Nat → Array α → Array α
  | 0, arr => arr
  | i + 1, arr =>
    heapPop less first i
      (siftDownFunc less (goSwap arr first (first + i)) 0 i first)

/-- heapSort_func on data[a:b]. -/
def heapSortFunc (less : α → α → Bool) (arr : Array α) (a b : Nat) : Array α :=
  let hi := b - a
  heapPop less a hi (heapBuild less hi a ((hi - 1) / 2 + 1) arr)

/-- Scan of partition_func: advance i while i <= j and data[i] < pivot
value at a. -/
def scanUp (less : α → α → Bool) (arr : Array α) (a : Nat) :
    Nat → Nat → Nat → Nat
  | 0, i, _ => i
  | fuel + 1, i, j =>
    if i ≤ j && less (arr.get! i) (arr.get! a) then
      scanUp less arr a fuel (i + 1) j
    else i

/-- Scan of partition_func: retreat j while i <= j and data[j] >= pivot
value at a. -/
def scanDown (less : α → α → Bool) (arr : Array α) (a : Nat) :
    Nat → Nat → Nat → Nat
  | 0, _, j => j
  | fuel + 1, i, j =>
    if i ≤ j && !(less (arr.get! j) (arr.get! a)) then
      scanDown less arr a fuel i (j - 1)
    else j

/-- Main loop of partition_func after the first exchange. -/
def partitionLoop (less : α → α → Bool) (a b : Nat) :
    Nat → Array α → Nat → Nat → Array α × Nat
  | 0, arr, _, j => (arr, j)
  | fuel + 1, arr, i, j =>
    let i1 := scanUp less arr a b i j
    let j1 := scanDown less arr a b i1 j
    if i1 > j1 then (arr, j1)
    else partitionLoop less a b fuel (goSwap arr i1 j1) (i1 + 1) (j1 - 1)

/-- partition_func: one quicksort partition of data[a:b] around the value
at index pivot; returns the new array, the final pivot position, and
whether the slice was already partitioned. -/
def partitionFunc (less : α → α → Bool) (arr0 : Array α) (a b pivot : Nat) :
    Array α × Nat × Bool :=
  let arr1 := goSwap arr0 a pivot
  let i0 := a + 1
  let j0 := b - 1
  let i1 := scanUp less arr1 a b i0 j0
  let j1 := scanDown less arr1 a b i1 j0
  if i1 > j1 then (goSwap arr1 j1 a, j1, true)
  else
    let p := partitionLoop less a b b (goSwap arr1 i1 j1) (i1 + 1) (j1 - 1)
    (goSwap p.1 p.2 a, p.2, false)

/-- Scan of partitionEqual_func: advance i while data[a] is not less than
data[i] (i.e. data[i] equals the pivot). -/
def scanUpEq (less : α → α → Bool) (arr : Array α) (a : Nat) :
    Nat → Nat → Nat → Nat
  | 0, i, _ => i
  | fuel + 1, i, j =>
    if i ≤ j && !(less (arr.get! a) (arr.get! i)) then
      scanUpEq less arr a fuel (i + 1) j
    else i

/-- Scan of partitionEqual_func: retreat j while data[a] is less than
data[j]. -/
def scanDownEq (less : α → α → Bool) (arr : Array α) (a : Nat) :
    Nat → Nat → Nat → Nat
  | 0, _, j => j
  | fuel + 1, i, j =>
    if i ≤ j && less (arr.get! a) (arr.get! j) then
      scanDownEq less arr a fuel i (j - 1)
    else j

/-- Loop of partitionEqual_func. -/
def partitionEqualLoop (less : α → α → Bool) (a b : Nat) :
    Nat → Array α → Nat → Nat → Array α × Nat
  | 0, arr, i, _ => (arr, i)
  | fuel + 1, arr, i, j =>
    let i1 := scanUpEq less arr a b i j
    let j1 := scanDownEq less arr a b i1 j
    if i1 > j1 then (arr, i1)
    else partitionEqualLoop less a b fuel (goSwap arr i1 j1) (i1 + 1) (j1 - 1)

/-- partitionEqual_func: partitions data[a:b] into elements equal to the
pivot value followed by elements greater than it; returns the new array
and the first index of the greater part. -/
def partitionEqualFunc (less : α → α → Bool) (arr0 : Array α)
    (a b pivot : Nat) : Array α × Nat :=
  let arr1 := goSwap arr0 a pivot
  partitionEqualLoop less a b b arr1 (a + 1) (b - 1)

/-- Advance loop of partialInsertionSort_func: find the first adjacent
descent at or after i. -/
def painAdvance (less : α → α → Bool) (arr : Array α) (b : Nat) :
    Nat → Nat → Nat
  | 0, i => i
  | fuel + 1, i =>
    if i < b && !(less (arr.get! i) (arr.get! (i - 1))) then
      painAdvance less arr b fuel (i + 1)
    else i

/-- Left shift loop of partialInsertionSort_func, j from i-1 down while
descending. -/
def painShiftLeft (less : α → α → Bool) : Nat → Array α → Array α
  | 0, arr => arr
  | j + 1, arr =>
    if !(less (arr.get! (j + 1)) (arr.get! j)) then arr
    else painShiftLeft less j (goSwap arr (j + 1) j)

/-- Right shift loop of partialInsertionSort_func, j from i+1 up while
descending. -/
def painShiftRight (less : α → α → Bool) (b : Nat) :
    Nat → Array α → Nat → Array α
  | 0, arr, _ => arr
  | fuel + 1, arr, j =>
    if j < b then
      if !(less (arr.get! j) (arr.get! (j - 1))) then arr
      else painShiftRight less b fuel (goSwap arr j (j - 1)) (j + 1)
    else arr

/-- Outer loop of partialInsertionSort_func (at most maxSteps = 5 adjacent
out-of-order pairs get shifted; nothing is shifted when b - a <
shortestShifting = 50). -/
def painLoop (less : α → α → Bool) (a b : Nat) :
    Nat → Array α → Nat → Array α × Bool
  | 0, arr, _ => (arr, false)
  | steps + 1, arr, i =>
    let i1 := painAdvance less arr b (b + 1) i
    if i1 == b then (arr, true)
    else if b - a < 50 then (arr, false)
    else
      let arr1 := goSwap arr i1 (i1 - 1)
      let arr2 := if i1 - a ≥ 2 then painShiftLeft less (i1 - 1) arr1 else arr1
      let arr3 :=
        if b - i1 ≥ 2 then painShiftRight less b b arr2 (i1 + 1) else arr2
      painLoop less a b steps arr3 i1

/-- partialInsertionSort_func: partially sorts data[a:b]; true means the
slice ended up sorted. -/
def partialInsertionSortFunc (less : α → α → Bool) (arr : Array α)
    (a b : Nat) : Array α × Bool :=
  painLoop less a b 5 arr (a + 1)

/-- One step of the xorshift generator used by breakPatterns_func, on
uint64 (arithmetic modulo 2^64). -/
def xorshiftNext (r : Nat) : Nat :=
  let r1 := (r ^^^ (r <<< 13)) % 2 ^ 64
  let r2 := r1 ^^^ (r1 >>> 17)
  (r2 ^^^ (r2 <<< 5)) % 2 ^ 64

/-- bits.Len for the values used by sort.Slice. -/
def goBitsLenAux : Nat → Nat → Nat
  | 0, _ => 0
  | fuel + 1, n => if n = 0 then 0 else goBitsLenAux fuel (n / 2) + 1

/-- Go math/bits.Len: number of bits to represent n. -/
def goBitsLen (n : Nat) : Nat := goBitsLenAux 64 n

/-- nextPowerOfTwo from Go's sort package: 1 shifted by bits.Len(length). -/
def nextPowerOfTwo (length : Nat) : Nat := 1 <<< goBitsLen length

/-- The three swaps of breakPatterns_func, i = 0, 1, 2, threading the
xorshift state. -/
def breakPatternsSwaps (a idx length modulus : Nat) :
    Nat → Array α → Nat → Array α
  | 0, arr, _ => arr
  | i + 1, arr, r =>
    let r1 := xorshiftNext r
    let other0 := r1 &&& (modulus - 1)
    let other := if other0 ≥ length then other0 - length else other0
    breakPatternsSwaps a idx length modulus i
      (goSwap arr (idx + (3 - (i + 1))) (a + other)) r1

/-- breakPatterns_func: scatter three elements near the middle of
data[a:b] using positions from a deterministic xorshift seeded with the
length. -/
def breakPatternsFunc (arr : Array α) (a b : Nat) : Array α :=
  let length := b - a
  if length ≥ 8 then
    let modulus := nextPowerOfTwo length
    let idx := a + (length / 4) * 2 - 1
    breakPatternsSwaps a idx length modulus 3 arr length
  else arr

/-- Hint returned by choosePivot_func. -/
inductive SortedHint where
  | increasing
  | decreasing
  | unknown
deriving DecidableEq, Repr

/-- order2_func: order two indices by their values, counting swaps. -/
def order2Func (less : α → α → Bool) (arr : Array α) (a b swaps : Nat) :
    Nat × Nat × Nat :=
  if less (arr.get! b) (arr.get! a) then (b, a, swaps + 1) else (a, b, swaps)

/-- median_func: index of the median of three values, counting swaps. -/
def medianFunc (less : α → α → Bool) (arr : Array α) (a b c swaps : Nat) :
    Nat × Nat :=
  let p1 := order2Func less arr a b swaps
  let p2 := order2Func less arr p1.2.1 c p1.2.2
  let p3 := order2Func less arr p1.1 p2.1 p2.2.2
  (p3.2.1, p3.2.2)

/-- medianAdjacent_func: median of data[a-1], data[a], data[a+1]. -/
def medianAdjacentFunc (less : α → α → Bool) (arr : Array α) (a swaps : Nat) :
    Nat × Nat :=
  medianFunc less arr (a - 1) a (a + 1) swaps

/-- choosePivot_func: static pivot below 8 elements, median of three up to
shortestNinther = 50, Tukey ninther beyond; the swap count yields the
sortedness hint. -/
def choosePivotFunc (less : α → α → Bool) (arr : Array α) (a b : Nat) :
    Nat × SortedHint :=
  let l := b - a
  let i0 := a + l / 4 * 1
  let j0 := a + l / 4 * 2
  let k0 := a + l / 4 * 3
  let r :=
    if l ≥ 8 then
      if l ≥ 50 then
        let pi := medianAdjacentFunc less arr i0 0
        let pj := medianAdjacentFunc less arr j0 pi.2
        let pk := medianAdjacentFunc less arr k0 pj.2
        medianFunc less arr pi.1 pj.1 pk.1 pk.2
      else medianFunc less arr i0 j0 k0 0
    else (j0, 0)
  if r.2 = 0 then (r.1, SortedHint.increasing)
  else if r.2 = 12 then (r.1, SortedHint.decreasing)
  else (r.1, SortedHint.unknown)

/-- reverseRange_func on data[a:b]. -/
def reverseRangeAux : Nat → Array α → Nat → Nat → Array α
  | 0, arr, _, _ => arr
  | fuel + 1, arr, i, j =>
    if i < j then reverseRangeAux fuel (goSwap arr i j) (i + 1) (j - 1)
    else arr

/-- reverseRange_func. -/
def reverseRangeFunc (arr : Array α) (a b : Nat) : Array α :=
  reverseRangeAux b arr a (b - 1)

/-- pdqsort_func: the main pattern-defeating quicksort.  The fuel bounds
loop iterations plus recursive calls; none is returned on exhaustion. -/
def pdqsortAux (less : α → α → Bool) :
    Nat → Array α → Nat → Nat → Nat → Bool → Bool → Option (Array α)
  | 0, _, _, _, _, _, _ => none
  | fuel + 1, arr, a, b, limit, wasBalanced, wasPartitioned =>
    let length := b - a
    if length ≤ 12 then some (insertionSortFunc less arr a b)
    else if limit = 0 then some (heapSortFunc less arr a b)
    else
      let arr1 := if !wasBalanced then breakPatternsFunc arr a b else arr
      let limit1 := if !wasBalanced then limit - 1 else limit
      let pv := choosePivotFunc less arr1 a b
      let arr2 :=
        if pv.2 = SortedHint.decreasing then reverseRangeFunc arr1 a b else arr1
      let pivot :=
        if pv.2 = SortedHint.decreasing then (b - 1) - (pv.1 - a) else pv.1
      let hint :=
        if pv.2 = SortedHint.decreasing then SortedHint.increasing else pv.2
      let pres :=
        if wasBalanced && wasPartitioned && hint = SortedHint.increasing then
          partialInsertionSortFunc less arr2 a b
        else (arr2, false)
      if pres.2 then some pres.1
      else
        let arr3 := pres.1
        if a > 0 && !(less (arr3.get! (a - 1)) (arr3.get! pivot)) then
          let pe := partitionEqualFunc less arr3 a b pivot
          pdqsortAux less fuel pe.1 pe.2 b limit1 wasBalanced wasPartitioned
        else
          let pt := partitionFunc less arr3 a b pivot
          let mid := pt.2.1
          let wasPartitioned1 := pt.2.2
          let leftLen := mid - a
          let rightLen := b - mid
          let balanceThreshold := length / 8
          let wasBalanced1 := decide (min leftLen rightLen ≥ balanceThreshold)
          if leftLen < rightLen then
            match pdqsortAux less fuel pt.1 a mid limit1 true true with
            | none => none
            | some arr4 =>
              pdqsortAux less fuel arr4 (mid + 1) b limit1 wasBalanced1
                wasPartitioned1
          else
            match pdqsortAux less fuel pt.1 (mid + 1) b limit1 true true with
            | none => none
            | some arr4 =>
              pdqsortAux less fuel arr4 a mid limit1 wasBalanced1 wasPartitioned1

/-- sort.Slice: limit = bits.Len(length), then pdqsort over the whole
slice. -/
def sortSliceFunc (less : α → α → Bool) (arr : Array α) : Option (Array α) :=
  let length := arr.size
  let limit := goBitsLen length
  pdqsortAux less 1000000 arr 0 length limit true true

/-- sort.Slice on a Go slice represented as a list. -/
def goSortSlice (less : α → α → Bool) (l : List α) : Option (List α) :=
  (sortSliceFunc less l.toArray).map Array.toList

end GoSort

/-- The filter loop of events/manager.go GetEventsForDate: the stored
events whose day-normalized date equals the day-normalized argument, in
storage order. -/
def dateEventsFor (events : List Event) (date : Date) : List Event :=
  let targetDate := mkDate date.year date.month date.day
  events.filter
    (fun ev => mkDate ev.date.year ev.date.month ev.date.day == targetDate)

/-- events/manager.go GetEventsForDate: filter the stored events by
day-normalized date equality (in storage order), then sort.Slice by
Time.Before.  Returns none only if the sort fuel were to run out. -/
def getEventsForDate (events : List Event) (date : Date) : Option (List Event) :=
  goSortSlice (fun x y => timeBefore x.time y.time) (dateEventsFor events date)

/-- The date shared by the 13 events of the claim C2 evaluation. -/
def c2Date : Date := ⟨2025, 8, 15⟩

/-- An event on c2Date at the given hour. -/
def c2Event (h : Int) (s : String) : Event := ⟨c2Date, ⟨h, 0⟩, s⟩

/-- Thirteen stored events on one date, in insertion order.  tieA and tieB
share the time 07:00; n2, n5, n8 share 09:00. -/
def c2Events : List Event :=
  [c2Event 7 "tieA", c2Event 5 "e1", c2Event 9 "n2", c2Event 6 "e3",
   c2Event 4 "e4", c2Event 9 "n5", c2Event 7 "tieB", c2Event 3 "e7",
   c2Event 9 "n8", c2Event 8 "e9", c2Event 2 "e10", c2Event 1 "e11",
   c2Event 0 "e12"]

/-- What GetEventsForDate actually returns on c2Events. -/
def c2Sorted : List Event :=
  [c2Event 0 "e12", c2Event 1 "e11", c2Event 2 "e10", c2Event 3 "e7",
   c2Event 4 "e4", c2Event 5 "e1", c2Event 6 "e3", c2Event 7 "tieB",
   c2Event 7 "tieA", c2Event 8 "e9", c2Event 9 "n8", c2Event 9 "n5",
   c2Event 9 "n2"]

set_option maxRecDepth 1000000 in
/-- Claim C2: evaluation of GetEventsForDate at a thirteen-event
collection on one date.  The result is sorted ascending by time of day,
but the equal-time pair tieA (inserted first) and tieB (inserted seventh)
comes back in reversed order, as does the 09:00 triple n2, n5, n8:
sort.Slice (pdqsort, the algorithm behind Go 1.19's sort.Slice) partitions
across the ties, so the sort is not stable once more than twelve events
share the date. -/
theorem c2_sort_not_stable :
    getEventsForDate c2Events c2Date = some c2Sorted ∧
    c2Events.indexOf (c2Event 7 "tieA") = 0 ∧
    c2Events.indexOf (c2Event 7 "tieB") = 6 ∧
    c2Sorted.indexOf (c2Event 7 "tieB") = 7 ∧
    c2Sorted.indexOf (c2Event 7 "tieA") = 8 ∧
    timeBefore (c2Event 7 "tieA").time (c2Event 7 "tieB").time = false ∧
    timeBefore (c2Event 7 "tieB").time (c2Event 7 "tieA").time = false := by
  decide!

/-- The removal scan shared by events/manager.go DeleteEvent (in-memory
loop) and storage DeleteEventFromFile: walk the collection in order,
append every event that does not match, record whether any matched.  The
loop skips (deletes) every matching event, not only the first. -/
def deleteScan (events : List Event) (eventToDelete : Event) :
    List Event × Bool :=
  events.foldl
    (fun acc ev =>
      if eventMatches ev eventToDelete then (acc.1, true)
      else (acc.1 ++ [ev], acc.2))
    ([], false)

/-- events/manager.go DeleteEvent.  The code deletes from storage first
and returns that error with memory untouched; the events file mirrors the
in-memory collection and storage.DeleteEventFromFile runs the identical
scan, failing exactly when nothing matches, so both the storage step and
the subsequent in-memory rebuild are the same deleteScan.  Returns the new
collection and an error (collection unchanged) when no event matches. -/
def deleteEvent (events : List Event) (eventToDelete : Event) :
    List Event × Option String :=
  match deleteScan events eventToDelete with
  | (_, false) =>
    (events, some "failed to delete event from storage: event not found for deletion")
  | (updatedEvents, true) => (updatedEvents, none)

theorem deleteScan_go (e : Event) (events : List Event)
    (acc : List Event × Bool) :
    events.foldl
      (fun acc ev =>
        if eventMatches ev e then (acc.1, true)
        else (acc.1 ++ [ev], acc.2)) acc =
      (acc.1 ++ events.filter (fun ev => !eventMatches ev e),
        acc.2 || events.any (fun ev => eventMatches ev e)) := by
  induction events generalizing acc with
  | nil => simp
  | cons ev rest ih =>
    simp only [List.foldl_cons, List.filter_cons, List.any_cons]
    by_cases hm : eventMatches ev e = true
    · simp only [hm, if_true, Bool.not_true, ih]
      simp
    · have hm' : eventMatches ev e = false := by simpa using hm
      simp only [hm', if_false, Bool.not_false, ih]
      simp

theorem deleteScan_spec (events : List Event) (e : Event) :
    deleteScan events e =
      (events.filter (fun ev => !eventMatches ev e),
        events.any (fun ev => eventMatches ev e)) := by
  unfold deleteScan
  rw [deleteScan_go]
  simp

/-- Claim C4, counterexample: with two identical stored events, DeleteEvent
removes both (the scan skips every match), so the collection ends empty
rather than keeping the later duplicate as the claim states. -/
theorem c4_counterexample :
    (deleteEvent
      [⟨⟨2025, 8, 15⟩, ⟨10, 0⟩, "dup"⟩, ⟨⟨2025, 8, 15⟩, ⟨10, 0⟩, "dup"⟩]
      ⟨⟨2025, 8, 15⟩, ⟨10, 0⟩, "dup"⟩).1 = ([] : List Event) ∧
    (deleteEvent
      [⟨⟨2025, 8, 15⟩, ⟨10, 0⟩, "dup"⟩, ⟨⟨2025, 8, 15⟩, ⟨10, 0⟩, "dup"⟩]
      ⟨⟨2025, 8, 15⟩, ⟨10, 0⟩, "dup"⟩).1 ≠
      [⟨⟨2025, 8, 15⟩, ⟨10, 0⟩, "dup"⟩] ∧
    (deleteEvent
      [⟨⟨2025, 8, 15⟩, ⟨10, 0⟩, "dup"⟩, ⟨⟨2025, 8, 15⟩, ⟨10, 0⟩, "dup"⟩]
      ⟨⟨2025, 8, 15⟩, ⟨10, 0⟩, "dup"⟩).2 = none := by decide

/-- Claim C4, amended: DeleteEvent removes every stored event whose
(date, time, description) tuple equals the argument's (later duplicates
included); when no stored event matches it returns a not-found error and
the collection, in particular its size, is unchanged. -/
theorem c4_delete_semantics (events : List Event) (e : Event) :
    (events.any (fun ev => eventMatches ev e) = true →
      deleteEvent events e =
        (events.filter (fun ev => !eventMatches ev e), none)) ∧
    (events.any (fun ev => eventMatches ev e) = false →
      (deleteEvent events e).1 = events ∧
        (deleteEvent events e).2.isSome = true) := by
  constructor
  · intro hany
    unfold deleteEvent
    rw [deleteScan_spec, hany]
  · intro hnone
    unfold deleteEvent
    rw [deleteScan_spec, hnone]
    exact ⟨rfl, rfl⟩

/-- Witness for c4_delete_semantics: a three-event collection with two
copies of the 10:00 event loses both of them, and deleting an absent event
errors with the collection intact. -/
theorem c4_delete_witness :
    deleteEvent
      [⟨⟨2025, 8, 15⟩, ⟨10, 0⟩, "a"⟩, ⟨⟨2025, 8, 15⟩, ⟨11, 0⟩, "b"⟩,
        ⟨⟨2025, 8, 15⟩, ⟨10, 0⟩, "a"⟩]
      ⟨⟨2025, 8, 15⟩, ⟨10, 0⟩, "a"⟩ =
      ([⟨⟨2025, 8, 15⟩, ⟨11, 0⟩, "b"⟩], none) ∧
    (deleteEvent [⟨⟨2025, 8, 15⟩, ⟨11, 0⟩, "b"⟩]
      ⟨⟨2025, 8, 15⟩, ⟨10, 0⟩, "a"⟩).1 = [⟨⟨2025, 8, 15⟩, ⟨11, 0⟩, "b"⟩] ∧
    (deleteEvent [⟨⟨2025, 8, 15⟩, ⟨11, 0⟩, "b"⟩]
      ⟨⟨2025, 8, 15⟩, ⟨10, 0⟩, "a"⟩).2.isSome = true := by
  refine ⟨?_, ?_, ?_⟩
  · have h := (c4_delete_semantics
      [⟨⟨2025, 8, 15⟩, ⟨10, 0⟩, "a"⟩, ⟨⟨2025, 8, 15⟩, ⟨11, 0⟩, "b"⟩,
        ⟨⟨2025, 8, 15⟩, ⟨10, 0⟩, "a"⟩]
      ⟨⟨2025, 8, 15⟩, ⟨10, 0⟩, "a"⟩).1 (by decide)
    rw [h]
    decide
  · exact ((c4_delete_semantics [⟨⟨2025, 8, 15⟩, ⟨11, 0⟩, "b"⟩]
      ⟨⟨2025, 8, 15⟩, ⟨10, 0⟩, "a"⟩).2 (by decide)).1
  · exact ((c4_delete_semantics [⟨⟨2025, 8, 15⟩, ⟨11, 0⟩, "b"⟩]
      ⟨⟨2025, 8, 15⟩, ⟨10, 0⟩, "a"⟩).2 (by decide)).2

/-- Go time.Parse with layout 15:04: one or two hour digits, a colon,
exactly two minute digits, with hour at most 23 and minute at most 59. -/
def parseTime (s : String) : Option TimeOfDay :=
  match s.data with
  | [h1, c, m1, m2] =>
    if c = ':' && h1.isDigit && m1.isDigit && m2.isDigit then
      let h : Int := h1.toNat - 48
      let mv : Int := ((m1.toNat - 48) * 10 + (m2.toNat - 48) : Nat)
      if h ≤ 23 && mv ≤ 59 then some ⟨h, mv⟩ else none
    else none
  | [h1, h2, c, m1, m2] =>
    if c = ':' && h1.isDigit && h2.isDigit && m1.isDigit && m2.isDigit then
      let h : Int := ((h1.toNat - 48) * 10 + (h2.toNat - 48) : Nat)
      let mv : Int := ((m1.toNat - 48) * 10 + (m2.toNat - 48) : Nat)
      if h ≤ 23 && mv ≤ 59 then some ⟨h, mv⟩ else none
    else none
  | _ => none

/-- Go strings.TrimSpace: strip leading and trailing white space. -/
def trimSpace (s : String) : String :=
  String.mk
    (((s.data.dropWhile Char.isWhitespace).reverse.dropWhile
      Char.isWhitespace).reverse)

/-- models.Event.GetTimeString (models/event.go, staged inside
src/models/selection_test.go): e.Time.Format with layout 15:04, the event
time rendered as zero-padded two-digit HH:MM. -/
def getTimeString (e : Event) : String :=
  (if e.time.hour < 10 then "0" else "") ++ toString e.time.hour ++ ":" ++
    (if e.time.minute < 10 then "0" else "") ++ toString e.time.minute

/-- storage/events.go ValidateEvent: non-blank description and a time whose
HH:MM rendering passes ValidateTimeString. -/
def validateEvent (e : Event) : Bool :=
  !(trimSpace e.description).isEmpty && validateTimeString (getTimeString e)

/-- The first-match replacement loop shared by events/manager.go EditEvent
(in-memory) and storage UpdateEventInFile: replace the first event equal to
oldEvent, leave the rest, report whether one was found. -/
def replaceFirst : List Event → Event → Event → List Event × Bool
  | [], _, _ => ([], false)
  | ev :: rest, oldEvent, newEvent =>
    if eventMatches ev oldEvent then (newEvent :: rest, true)
    else
      match replaceFirst rest oldEvent newEvent with
      | (r, f) => (ev :: r, f)

/-- events/manager.go EditEvent: validate the time string, the
description, parse the time, validate the complete new event, update
storage (the file mirrors the in-memory collection, so
storage.UpdateEventInFile is the same first-match replacement and fails
exactly when no event matches), then apply the identical in-memory
replacement.  Every failure returns an error with the collection
unchanged. -/
def editEvent (events : List Event) (oldEvent : Event) (date : Date)
    (timeStr description : String) : List Event × Option String :=
  if !(validateTimeString timeStr) then
    (events, some "invalid time format: expected HH:MM")
  else if description.length == 0 then
    (events, some "event description cannot be empty")
  else
    match parseTime timeStr with
    | none => (events, some "failed to parse time")
    | some eventTime =>
      if !(validateEvent ⟨date, eventTime, description⟩) then
        (events, some "new event validation failed")
      else
        match replaceFirst events oldEvent ⟨date, eventTime, description⟩ with
        | (_, false) =>
          (events, some "failed to update event in storage: event not found for update")
        | (updated, true) => (updated, none)

/-- The condition of claim C9: the time string parses as two colon-joined
Atoi integers denoting a time outside 00:00 to 23:59. -/
def timeStringOutsideRange (s : String) : Bool :=
  let parts := goSplit s ':'
  if parts.length != 2 then false
  else
    match goAtoi (parts.headD ""), goAtoi (parts.getD 1 "") with
    | some hour, some minute =>
      !(decide (hour ≥ 0) && decide (hour ≤ 23) &&
        decide (minute ≥ 0) && decide (minute ≤ 59))
    | _, _ => false

theorem validateTimeString_false_of_outside (s : String)
    (h : timeStringOutsideRange s = true) : validateTimeString s = false := by
  rcases hh : goAtoi ((goSplit s ':').headD "") with _ | hv <;>
    rcases hm : goAtoi ((goSplit s ':').getD 1 "") with _ | mv <;>
      by_cases hl : ((goSplit s ':').length != 2) = true <;>
        simp_all [timeStringOutsideRange, validateTimeString, hh, hm, hl] <;>
          omega

/-- Claim C9: EditEvent given a new value with an empty description or a
time string outside 00:00 to 23:59 returns an error and leaves the
in-memory collection exactly as it was: validation precedes every
mutation. -/
theorem c9_edit_validation_atomic (events : List Event) (oldEvent : Event)
    (date : Date) (timeStr description : String)
    (h : description = "" ∨ timeStringOutsideRange timeStr = true) :
    (editEvent events oldEvent date timeStr description).1 = events ∧
    (editEvent events oldEvent date timeStr description).2.isSome = true := by
  unfold editEvent
  rcases h with hd | ht
  · subst hd
    by_cases hv : validateTimeString timeStr = true
    · simp [hv]
    · have hv' : validateTimeString timeStr = false := by simpa using hv
      simp [hv']
  · have hv' := validateTimeString_false_of_outside _ ht
    simp [hv']

/-- Witness for c9_edit_validation_atomic: replacing the sole stored event
with the out-of-range time 24:00, or with an empty description, errors and
leaves the collection intact. -/
theorem c9_edit_validation_witness :
    (editEvent [⟨⟨2025, 8, 15⟩, ⟨10, 0⟩, "m"⟩] ⟨⟨2025, 8, 15⟩, ⟨10, 0⟩, "m"⟩
      ⟨2025, 8, 15⟩ "24:00" "x").1 = [⟨⟨2025, 8, 15⟩, ⟨10, 0⟩, "m"⟩] ∧
    (editEvent [⟨⟨2025, 8, 15⟩, ⟨10, 0⟩, "m"⟩] ⟨⟨2025, 8, 15⟩, ⟨10, 0⟩, "m"⟩
      ⟨2025, 8, 15⟩ "24:00" "x").2.isSome = true ∧
    (editEvent [⟨⟨2025, 8, 15⟩, ⟨10, 0⟩, "m"⟩] ⟨⟨2025, 8, 15⟩, ⟨10, 0⟩, "m"⟩
      ⟨2025, 8, 15⟩ "10:30" "").1 = [⟨⟨2025, 8, 15⟩, ⟨10, 0⟩, "m"⟩] ∧
    (editEvent [⟨⟨2025, 8, 15⟩, ⟨10, 0⟩, "m"⟩] ⟨⟨2025, 8, 15⟩, ⟨10, 0⟩, "m"⟩
      ⟨2025, 8, 15⟩ "10:30" "").2.isSome = true := by
  have h1 := c9_edit_validation_atomic [⟨⟨2025, 8, 15⟩, ⟨10, 0⟩, "m"⟩]
    ⟨⟨2025, 8, 15⟩, ⟨10, 0⟩, "m"⟩ ⟨2025, 8, 15⟩ "24:00" "x"
    (Or.inr (by decide))
  have h2 := c9_edit_validation_atomic [⟨⟨2025, 8, 15⟩, ⟨10, 0⟩, "m"⟩]
    ⟨⟨2025, 8, 15⟩, ⟨10, 0⟩, "m"⟩ ⟨2025, 8, 15⟩ "10:30" ""
    (Or.inl rfl)
  exact ⟨h1.1, h1.2, h2.1, h2.2⟩

section GoSortPerm

variable {α : Type} [Inhabited α] {less : α → α → Bool}

theorem cons_set_perm (a : α) (l : List α) (k : Nat) (hk : k < l.length) :
    (l[k] :: l.set k a).Perm (a :: l) := by
  induction l generalizing k with
  | nil => simp at hk
  | cons b t ih =>
    cases k with
    | zero => simpa using List.Perm.swap a b t
    | succ k =>
      have hk' : k < t.length := by simpa using hk
      have h1 : (t[k] :: b :: t.set k a).Perm (b :: t[k] :: t.set k a) :=
        List.Perm.swap b t[k] (t.set k a)
      have h2 : (b :: t[k] :: t.set k a).Perm (b :: (a :: t)) :=
        List.Perm.cons b (ih k hk')
      have h3 : (b :: a :: t).Perm (a :: b :: t) := List.Perm.swap a b t
      simpa using (h1.trans h2).trans h3

theorem swap_list_perm (l : List α) (i j : Nat) (hi : i < l.length)
    (hj : j < l.length) : ((l.set i l[j]).set j l[i]).Perm l := by
  induction l generalizing i j with
  | nil => simp at hi
  | cons b t ih =>
    cases i with
    | zero =>
      cases j with
      | zero => simp
      | succ k =>
        have hk : k < t.length := by simpa using hj
        simpa using cons_set_perm b t k hk
    | succ s =>
      cases j with
      | zero =>
        have hs : s < t.length := by simpa using hi
        simpa using cons_set_perm b t s hs
      | succ k =>
        have hs : s < t.length := by simpa using hi
        have hk : k < t.length := by simpa using hj
        simpa using List.Perm.cons b (ih s k hs hk)

theorem goSwap_perm (arr : Array α) (i j : Nat) :
    (goSwap arr i j).toList.Perm arr.toList := by
  unfold goSwap
  split_ifs with hi hj
  · rw [Array.toList_swap]
    have hi' : i < arr.toList.length := by simpa using hi
    have hj' : j < arr.toList.length := by simpa using hj
    have hgi : arr.get ⟨i, hi⟩ = arr.toList[i] := by
      rw [Array.get_eq_getElem, Array.getElem_eq_getElem_toList]
    have hgj : arr.get ⟨j, hj⟩ = arr.toList[j] := by
      rw [Array.get_eq_getElem, Array.getElem_eq_getElem_toList]
    rw [hgi, hgj]
    exact swap_list_perm arr.toList i j hi' hj'
  · exact List.Perm.refl _
  · exact List.Perm.refl _

theorem insertionInner_perm (a : Nat) :
    ∀ (j : Nat) (arr : Array α),
      (insertionInner less a j arr).toList.Perm arr.toList
  | 0, arr => by simp [insertionInner]
  | j + 1, arr => by
    simp only [insertionInner]
    split_ifs with h
    · exact (insertionInner_perm a j (goSwap arr (j + 1) j)).trans
        (goSwap_perm arr (j + 1) j)
    · exact List.Perm.refl _

theorem insertionSortAux_perm (a b : Nat) :
    ∀ (fuel : Nat) (arr : Array α) (i : Nat),
      (insertionSortAux less a b fuel arr i).toList.Perm arr.toList
  | 0, arr, _ => by simp [insertionSortAux]
  | fuel + 1, arr, i => by
    simp only [insertionSortAux]
    split_ifs with h
    · exact (insertionSortAux_perm a b fuel (insertionInner less a i arr)
        (i + 1)).trans (insertionInner_perm a i arr)
    · exact List.Perm.refl _

theorem insertionSortFunc_perm (arr : Array α) (a b : Nat) :
    (insertionSortFunc less arr a b).toList.Perm arr.toList :=
  insertionSortAux_perm a b (b - a + 1) arr (a + 1)

theorem siftDownAux_perm (hi first : Nat) :
    ∀ (fuel : Nat) (arr : Array α) (root : Nat),
      (siftDownAux less hi first fuel arr root).toList.Perm arr.toList
  | 0, arr, _ => by simp [siftDownAux]
  | fuel + 1, arr, root => by
    simp only [siftDownAux]
    split_ifs <;>
      first
        | exact List.Perm.refl _
        | exact (siftDownAux_perm hi first fuel _ _).trans (goSwap_perm arr _ _)

theorem siftDownFunc_perm (arr : Array α) (lo hi first : Nat) :
    (siftDownFunc less arr lo hi first).toList.Perm arr.toList :=
  siftDownAux_perm hi first (hi + 2) arr lo

theorem heapBuild_perm (hi first : Nat) :
    ∀ (count : Nat) (arr : Array α),
      (heapBuild less hi first count arr).toList.Perm arr.toList
  | 0, arr => by simp [heapBuild]
  | i + 1, arr => by
    simp only [heapBuild]
    exact (heapBuild_perm hi first i _).trans (siftDownFunc_perm arr i hi first)

theorem heapPop_perm (first : Nat) :
    ∀ (count : Nat) (arr : Array α),
      (heapPop less first count arr).toList.Perm arr.toList
  | 0, arr => by simp [heapPop]
  | i + 1, arr => by
    simp only [heapPop]
    exact (heapPop_perm first i _).trans
      ((siftDownFunc_perm _ 0 i first).trans (goSwap_perm arr first (first + i)))

theorem heapSortFunc_perm (arr : Array α) (a b : Nat) :
    (heapSortFunc less arr a b).toList.Perm arr.toList := by
  simp only [heapSortFunc]
  exact (heapPop_perm a (b - a) _).trans (heapBuild_perm (b - a) a _ arr)

theorem partitionLoop_perm (a b : Nat) :
    ∀ (fuel : Nat) (arr : Array α) (i j : Nat),
      (partitionLoop less a b fuel arr i j).1.toList.Perm arr.toList
  | 0, arr, _, _ => by simp [partitionLoop]
  | fuel + 1, arr, i, j => by
    simp only [partitionLoop]
    split_ifs with h
    · exact List.Perm.refl _
    · exact (partitionLoop_perm a b fuel _ _ _).trans (goSwap_perm arr _ _)

theorem partitionFunc_perm (arr0 : Array α) (a b pivot : Nat) :
    (partitionFunc less arr0 a b pivot).1.toList.Perm arr0.toList := by
  simp only [partitionFunc]
  split_ifs with h
  · exact (goSwap_perm _ _ _).trans (goSwap_perm arr0 a pivot)
  · exact (goSwap_perm _ _ _).trans
      ((partitionLoop_perm a b b _ _ _).trans
        ((goSwap_perm _ _ _).trans (goSwap_perm arr0 a pivot)))

theorem partitionEqualLoop_perm (a b : Nat) :
    ∀ (fuel : Nat) (arr : Array α) (i j : Nat),
      (partitionEqualLoop less a b fuel arr i j).1.toList.Perm arr.toList
  | 0, arr, _, _ => by simp [partitionEqualLoop]
  | fuel + 1, arr, i, j => by
    simp only [partitionEqualLoop]
    split_ifs with h
    · exact List.Perm.refl _
    · exact (partitionEqualLoop_perm a b fuel _ _ _).trans (goSwap_perm arr _ _)

theorem partitionEqualFunc_perm (arr0 : Array α) (a b pivot : Nat) :
    (partitionEqualFunc less arr0 a b pivot).1.toList.Perm arr0.toList := by
  simp only [partitionEqualFunc]
  exact (partitionEqualLoop_perm a b b _ _ _).trans (goSwap_perm arr0 a pivot)

theorem painShiftLeft_perm :
    ∀ (j : Nat) (arr : Array α),
      (painShiftLeft less j arr).toList.Perm arr.toList
  | 0, arr => by simp [painShiftLeft]
  | j + 1, arr => by
    simp only [painShiftLeft]
    split_ifs with h
    · exact List.Perm.refl _
    · exact (painShiftLeft_perm j _).trans (goSwap_perm arr _ _)

theorem painShiftRight_perm (b : Nat) :
    ∀ (fuel : Nat) (arr : Array α) (j : Nat),
      (painShiftRight less b fuel arr j).toList.Perm arr.toList
  | 0, arr, _ => by simp [painShiftRight]
  | fuel + 1, arr, j => by
    simp only [painShiftRight]
    split_ifs with h1 h2
    · exact List.Perm.refl _
    · exact (painShiftRight_perm b fuel _ _).trans (goSwap_perm arr _ _)
    · exact List.Perm.refl _

theorem painLoop_perm (a b : Nat) :
    ∀ (steps : Nat) (arr : Array α) (i : Nat),
      (painLoop less a b steps arr i).1.toList.Perm arr.toList
  | 0, arr, _ => by simp [painLoop]
  | steps + 1, arr, i => by
    simp only [painLoop]
    split_ifs <;>
      first
        | exact List.Perm.refl _
        | exact (painLoop_perm a b steps _ _).trans
            ((painShiftRight_perm b b _ _).trans
              ((painShiftLeft_perm _ _).trans (goSwap_perm arr _ _)))
        | exact (painLoop_perm a b steps _ _).trans
            ((painShiftRight_perm b b _ _).trans (goSwap_perm arr _ _))
        | exact (painLoop_perm a b steps _ _).trans
            ((painShiftLeft_perm _ _).trans (goSwap_perm arr _ _))
        | exact (painLoop_perm a b steps _ _).trans (goSwap_perm arr _ _)

theorem partialInsertionSortFunc_perm (arr : Array α) (a b : Nat) :
    (partialInsertionSortFunc less arr a b).1.toList.Perm arr.toList :=
  painLoop_perm a b 5 arr (a + 1)

theorem breakPatternsSwaps_perm (a idx length modulus : Nat) :
    ∀ (count : Nat) (arr : Array α) (r : Nat),
      (breakPatternsSwaps a idx length modulus count arr r :
        Array α).toList.Perm arr.toList
  | 0, arr, _ => by simp [breakPatternsSwaps]
  | i + 1, arr, r => by
    simp only [breakPatternsSwaps]
    exact (breakPatternsSwaps_perm a idx length modulus i _ _).trans
      (goSwap_perm arr _ _)

theorem breakPatternsFunc_perm (arr : Array α) (a b : Nat) :
    (breakPatternsFunc arr a b).toList.Perm arr.toList := by
  simp only [breakPatternsFunc]
  split_ifs with h
  · exact breakPatternsSwaps_perm _ _ _ _ 3 arr _
  · exact List.Perm.refl _

theorem reverseRangeAux_perm :
    ∀ (fuel : Nat) (arr : Array α) (i j : Nat),
      (reverseRangeAux fuel arr i j : Array α).toList.Perm arr.toList
  | 0, arr, _, _ => by simp [reverseRangeAux]
  | fuel + 1, arr, i, j => by
    simp only [reverseRangeAux]
    split_ifs with h
    · exact (reverseRangeAux_perm fuel _ _ _).trans (goSwap_perm arr i j)
    · exact List.Perm.refl _

theorem reverseRangeFunc_perm (arr : Array α) (a b : Nat) :
    (reverseRangeFunc arr a b : Array α).toList.Perm arr.toList :=
  reverseRangeAux_perm b arr a (b - 1)

end GoSortPerm

theorem pdqsortAux_perm {α : Type} [Inhabited α] {less : α → α → Bool} :
    ∀ (fuel : Nat) (arr : Array α) (a b limit : Nat) (wb wp : Bool)
      (r : Array α), pdqsortAux less fuel arr a b limit wb wp = some r →
      r.toList.Perm arr.toList
  | 0, arr, a, b, limit, wb, wp, r => by
    intro h
    simp [pdqsortAux] at h
  | fuel + 1, arr, a, b, limit, wb, wp, r => by
    intro h
    simp only [pdqsortAux] at h
    by_cases h1 : b - a ≤ 12
    · rw [if_pos h1] at h
      injection h with h2
      rw [← h2]
      exact insertionSortFunc_perm arr a b
    · rw [if_neg h1] at h
      by_cases h2 : limit = 0
      · rw [if_pos h2] at h
        injection h with h3
        rw [← h3]
        exact heapSortFunc_perm arr a b
      · rw [if_neg h2] at h
        set arr1 := if (!wb) = true then breakPatternsFunc arr a b else arr
          with harr1
        set limit1 := if (!wb) = true then limit - 1 else limit with hlimit1
        set pv := choosePivotFunc less arr1 a b with hpv
        set arr2 := if pv.2 = SortedHint.decreasing then reverseRangeFunc arr1 a b
          else arr1 with harr2
        set pivot := if pv.2 = SortedHint.decreasing then b - 1 - (pv.1 - a)
          else pv.1 with hpivot
        set hint := if pv.2 = SortedHint.decreasing then SortedHint.increasing
          else pv.2 with hhint
        set pres := if (wb && wp && decide (hint = SortedHint.increasing)) = true
          then partialInsertionSortFunc less arr2 a b else (arr2, false)
          with hpres
        have hp1 : arr1.toList.Perm arr.toList := by
          rw [harr1]
          split_ifs
          · exact breakPatternsFunc_perm arr a b
          · exact List.Perm.refl _
        have hp2 : arr2.toList.Perm arr1.toList := by
          rw [harr2]
          split_ifs
          · exact reverseRangeFunc_perm arr1 a b
          · exact List.Perm.refl _
        have hp3 : pres.1.toList.Perm arr2.toList := by
          rw [hpres]
          split_ifs
          · exact partialInsertionSortFunc_perm arr2 a b
          · exact List.Perm.refl _
        have hp123 : pres.1.toList.Perm arr.toList :=
          (hp3.trans hp2).trans hp1
        by_cases hdone : pres.2 = true
        · rw [if_pos hdone] at h
          injection h with h4
          rw [← h4]
          exact hp123
        · rw [if_neg hdone] at h
          by_cases heq : (decide (a > 0) &&
              !(less (pres.1.get! (a - 1)) (pres.1.get! pivot))) = true
          · rw [if_pos heq] at h
            exact (pdqsortAux_perm fuel _ _ _ _ _ _ r h).trans
              ((partitionEqualFunc_perm pres.1 a b pivot).trans hp123)
          · rw [if_neg heq] at h
            set pt := partitionFunc less pres.1 a b pivot with hpt
            have hppt : pt.1.toList.Perm arr.toList :=
              (partitionFunc_perm pres.1 a b pivot).trans hp123
            by_cases hlr : pt.2.1 - a < b - pt.2.1
            · rw [if_pos hlr] at h
              rcases hrec : pdqsortAux less fuel pt.1 a pt.2.1 limit1 true true
                with _ | arr4
              · rw [hrec] at h
                exact absurd h (by simp)
              · rw [hrec] at h
                exact (pdqsortAux_perm fuel _ _ _ _ _ _ r h).trans
                  ((pdqsortAux_perm fuel _ _ _ _ _ _ arr4 hrec).trans hppt)
            · rw [if_neg hlr] at h
              rcases hrec : pdqsortAux less fuel pt.1 (pt.2.1 + 1) b limit1
                  true true with _ | arr4
              · rw [hrec] at h
                exact absurd h (by simp)
              · rw [hrec] at h
                exact (pdqsortAux_perm fuel _ _ _ _ _ _ r h).trans
                  ((pdqsortAux_perm fuel _ _ _ _ _ _ arr4 hrec).trans hppt)

theorem goSortSlice_perm {α : Type} [Inhabited α] {less : α → α → Bool}
    (l r : List α) (h : goSortSlice less l = some r) : r.Perm l := by
  unfold goSortSlice sortSliceFunc at h
  rcases hs : pdqsortAux less 1000000 l.toArray 0 l.toArray.size
      (goBitsLen l.toArray.size) true true with _ | arr4
  · rw [hs] at h
    exact absurd h (by simp)
  · rw [hs] at h
    have h2 : arr4.toList = r := by
      simpa using h
    rw [← h2]
    have := pdqsortAux_perm 1000000 l.toArray 0 l.toArray.size
      (goBitsLen l.toArray.size) true true arr4 hs
    simpa using this

section InsertionSpec

variable {α : Type} [Inhabited α] {less : α → α → Bool}

/-- List-level specification of one insertion step of Go's insertion sort:
place x after every element it is not strictly less than. -/
def goInsertList (less : α → α → Bool) (x : α) : List α → List α
  | [] => [x]
  | z :: zs => if less x z then x :: z :: zs else z :: goInsertList less x zs

/-- List-level specification of Go's insertion sort: insert the elements
left to right. -/
def goIsortList (less : α → α → Bool) (l : List α) : List α :=
  l.foldl (fun acc y => goInsertList less y acc) []

theorem goInsertList_length (x : α) (s : List α) :
    (goInsertList less x s).length = s.length + 1 := by
  induction s with
  | nil => rfl
  | cons z zs ih =>
    unfold goInsertList
    split_ifs <;> simp [ih]

theorem goInsertList_append_gt (x y : α) (hxy : less x y = true) (s : List α) :
    goInsertList less x (s ++ [y]) = goInsertList less x s ++ [y] := by
  induction s with
  | nil => simp [goInsertList, hxy]
  | cons z zs ih =>
    simp only [List.cons_append]
    unfold goInsertList
    split_ifs with h
    · simp
    · simp [ih]

theorem goInsertList_append_all_le (x : α) (s : List α)
    (h : ∀ z ∈ s, less x z = false) :
    goInsertList less x s = s ++ [x] := by
  induction s with
  | nil => rfl
  | cons z zs ih =>
    unfold goInsertList
    have hz : less x z = false := h z (by simp)
    simp only [hz, Bool.false_eq_true, if_false, List.cons_append]
    rw [ih (fun w hw => h w (by simp [hw]))]

theorem goInsertList_mem {x w : α} {s : List α}
    (h : w ∈ goInsertList less x s) : w = x ∨ w ∈ s := by
  induction s with
  | nil => simpa [goInsertList] using h
  | cons z zs ih =>
    unfold goInsertList at h
    split_ifs at h with hz
    · rcases List.mem_cons.mp h with h2 | h2
      · exact Or.inl h2
      · exact Or.inr h2
    · rcases List.mem_cons.mp h with h2 | h2
      · exact Or.inr (by simp [h2])
      · rcases ih h2 with h3 | h3
        · exact Or.inl h3
        · exact Or.inr (by simp [h3])

/-- Inserting preserves sortedness with respect to the complement order,
given the two transitivity-style facts that hold of any strict total
order. -/
theorem goInsertList_pairwise
    (Hasym : ∀ u v : α, less u v = true → less v u = false)
    (Htrans2 : ∀ u v w : α, less u v = true → less w v = false →
      less w u = false)
    (x : α) (s : List α)
    (hs : List.Pairwise (fun u v => less v u = false) s) :
    List.Pairwise (fun u v => less v u = false) (goInsertList less x s) := by
  induction s with
  | nil => simpa [goInsertList]
  | cons z zs ih =>
    rcases List.pairwise_cons.mp hs with ⟨hz, hzs⟩
    unfold goInsertList
    split_ifs with hxz
    · refine List.pairwise_cons.mpr ⟨?_, hs⟩
      intro w hw
      rcases List.mem_cons.mp hw with h2 | h2
      · rw [h2]
        exact Hasym x z hxz
      · exact Htrans2 x z w hxz (hz w h2)
    · refine List.pairwise_cons.mpr ⟨?_, ih hzs⟩
      intro w hw
      rcases goInsertList_mem hw with h2 | h2
      · rw [h2]
        simpa using hxz
      · exact hz w h2

/-- Inserting a member of a key class places it after every element of the
class already present, so the class filter gains it at the end. -/
theorem goInsertList_filter_pos (p : α → Bool)
    (Htrans3 : ∀ u v w : α, less u v = true → less w v = false →
      less u w = true)
    (x : α) (hpx : p x = true)
    (Hclassx : ∀ w, p w = true → less x w = false)
    (s : List α)
    (hs : List.Pairwise (fun u v => less v u = false) s) :
    (goInsertList less x s).filter p = s.filter p ++ [x] := by
  induction s with
  | nil => simp [goInsertList, hpx]
  | cons z zs ih =>
    rcases List.pairwise_cons.mp hs with ⟨hz, hzs⟩
    unfold goInsertList
    split_ifs with hxz
    · have hnil : (z :: zs).filter p = [] := by
        rw [List.filter_eq_nil]
        intro w hw
        rcases List.mem_cons.mp hw with h2 | h2
        · intro hpw
          rw [h2] at hpw
          exact absurd hxz (by simp [Hclassx z hpw])
        · intro hpw
          exact absurd (Htrans3 x z w hxz (hz w h2)) (by simp [Hclassx w hpw])
      simp [hpx, hnil]
    · by_cases hpz : p z = true
      · simp [hpz, ih hzs]
      · have hpz2 : p z = false := by simpa using hpz
        simp [hpz2, ih hzs]

/-- Inserting an element outside the key class leaves the class filter
unchanged. -/
theorem goInsertList_filter_neg (p : α → Bool) (x : α) (hpx : p x = false)
    (s : List α) :
    (goInsertList less x s).filter p = s.filter p := by
  induction s with
  | nil => simp [goInsertList, hpx]
  | cons z zs ih =>
    unfold goInsertList
    split_ifs with hxz
    · simp [hpx]
    · by_cases hpz : p z = true
      · simp [hpz, ih]
      · have hpz2 : p z = false := by simpa using hpz
        simp [hpz2, ih]

theorem goIsortFold_pairwise
    (Hasym : ∀ u v : α, less u v = true → less v u = false)
    (Htrans2 : ∀ u v w : α, less u v = true → less w v = false →
      less w u = false) :
    ∀ (t s : List α), List.Pairwise (fun u v => less v u = false) s →
      List.Pairwise (fun u v => less v u = false)
        (t.foldl (fun acc y => goInsertList less y acc) s)
  | [], s, hs => by simpa using hs
  | x :: t, s, hs => by
    simp only [List.foldl_cons]
    exact goIsortFold_pairwise Hasym Htrans2 t _
      (goInsertList_pairwise Hasym Htrans2 x s hs)

theorem goIsortList_pairwise
    (Hasym : ∀ u v : α, less u v = true → less v u = false)
    (Htrans2 : ∀ u v w : α, less u v = true → less w v = false →
      less w u = false) (l : List α) :
    List.Pairwise (fun u v => less v u = false) (goIsortList less l) :=
  goIsortFold_pairwise Hasym Htrans2 l [] (by simp)

theorem goIsortFold_filter (p : α → Bool)
    (Hasym : ∀ u v : α, less u v = true → less v u = false)
    (Htrans2 : ∀ u v w : α, less u v = true → less w v = false →
      less w u = false)
    (Htrans3 : ∀ u v w : α, less u v = true → less w v = false →
      less u w = true)
    (Hclass : ∀ u w : α, p u = true → p w = true → less u w = false) :
    ∀ (t s : List α), List.Pairwise (fun u v => less v u = false) s →
      (t.foldl (fun acc y => goInsertList less y acc) s).filter p =
        s.filter p ++ t.filter p
  | [], s, hs => by simp
  | x :: t, s, hs => by
    simp only [List.foldl_cons]
    rw [goIsortFold_filter p Hasym Htrans2 Htrans3 Hclass t _
      (goInsertList_pairwise Hasym Htrans2 x s hs)]
    by_cases hpx : p x = true
    · rw [goInsertList_filter_pos p Htrans3 x hpx (fun w => Hclass x w hpx) s hs]
      simp [hpx]
    · have hpx2 : p x = false := by simpa using hpx
      rw [goInsertList_filter_neg p x hpx2 s]
      simp [hpx2]

theorem goIsortList_filter (p : α → Bool)
    (Hasym : ∀ u v : α, less u v = true → less v u = false)
    (Htrans2 : ∀ u v w : α, less u v = true → less w v = false →
      less w u = false)
    (Htrans3 : ∀ u v w : α, less u v = true → less w v = false →
      less u w = true)
    (Hclass : ∀ u w : α, p u = true → p w = true → less u w = false)
    (l : List α) :
    (goIsortList less l).filter p = l.filter p := by
  unfold goIsortList
  rw [goIsortFold_filter p Hasym Htrans2 Htrans3 Hclass l [] (by simp)]
  simp

theorem listSet_append (u v : List α) (a b : α) :
    (u ++ a :: v).set u.length b = u ++ b :: v := by
  induction u with
  | nil => rfl
  | cons z zs ih => simp [List.set, ih]

theorem listGetD_mid : ∀ (s : List α) (x : α) (t : List α),
    (s ++ x :: t).getD s.length default = x
  | [], _, _ => rfl
  | z :: zs, x, t => by simpa [List.getD] using listGetD_mid zs x t

theorem arrGetBang_toList (arr : Array α) (i : Nat) :
    arr.get! i = arr.toList.getD i default := by
  by_cases h : i < arr.size
  · have h2 : i < arr.toList.length := by simpa using h
    rw [Array.get!, Array.getD, dif_pos h, List.getD_eq_getElem _ _ h2]
    rfl
  · have h2 : arr.toList.length ≤ i := by
      simp only [Array.length_toList]
      omega
    rw [Array.get!, Array.getD, dif_neg h, List.getD_eq_default _ _ h2]

theorem arrGetBang_mid (arr : Array α) (s : List α) (x : α) (t : List α)
    (h : arr.toList = s ++ x :: t) : arr.get! s.length = x := by
  rw [arrGetBang_toList, h, listGetD_mid]

theorem goSwap_adj_toList (arr : Array α) (s t : List α) (a b : α)
    (h : arr.toList = s ++ a :: b :: t) :
    (goSwap arr (s.length + 1) s.length).toList = s ++ b :: a :: t := by
  have hlen : arr.toList.length = s.length + t.length + 2 := by
    simp [h]
    omega
  have hsz : arr.size = s.length + t.length + 2 := by
    rw [← Array.length_toList]
    exact hlen
  have hi : s.length + 1 < arr.size := by omega
  have hj : s.length < arr.size := by omega
  have hga : arr.get ⟨s.length, hj⟩ = a := by
    have h4 := arrGetBang_mid arr s a (b :: t) h
    rwa [Array.get!, Array.getD, dif_pos hj] at h4
  have hgb : arr.get ⟨s.length + 1, hi⟩ = b := by
    have h3 : arr.toList = (s ++ [a]) ++ b :: t := by simpa using h
    have h4 := arrGetBang_mid arr (s ++ [a]) b t h3
    rw [Array.get!, Array.getD] at h4
    have h5 : (s ++ [a]).length = s.length + 1 := by simp
    rw [h5] at h4
    rwa [dif_pos hi] at h4
  unfold goSwap
  rw [dif_pos hi, dif_pos hj, Array.toList_swap, hga, hgb, h]
  show ((s ++ a :: b :: t).set (s.length + 1) a).set s.length b =
    s ++ b :: a :: t
  have e1 : s ++ a :: b :: t = (s ++ [a]) ++ b :: t := by simp
  have e2 : (s ++ [a]).length = s.length + 1 := by simp
  rw [e1, ← e2, listSet_append]
  have e3 : (s ++ [a]) ++ a :: t = s ++ a :: a :: t := by simp
  rw [e3, listSet_append]

/-- The inner loop of Go's insertion sort performs exactly the list-level
insertion step on the sorted prefix. -/
theorem insertionInner_toList
    (Htrans4 : ∀ u v w : α, less u v = false → less v w = false →
      less u w = false)
    (s : List α) :
    ∀ (x : α) (t : List α) (arr : Array α),
      arr.toList = s ++ x :: t →
      List.Pairwise (fun u v => less v u = false) s →
      (insertionInner less 0 s.length arr).toList =
        goInsertList less x s ++ t := by
  induction s using List.reverseRecOn with
  | nil =>
    intro x t arr h _
    simpa [insertionInner, goInsertList] using h
  | append_singleton s' u ih =>
    intro x t arr h hs
    have hlen : (s' ++ [u]).length = s'.length + 1 := by simp
    have h2 : arr.toList = s' ++ u :: x :: t := by simpa using h
    have hgu : arr.get! s'.length = u := arrGetBang_mid arr s' u (x :: t) h2
    have hgx : arr.get! (s'.length + 1) = x := by
      have h4 := arrGetBang_mid arr (s' ++ [u]) x t h
      rwa [hlen] at h4
    rcases List.pairwise_append.mp hs with ⟨hs', _, hcross⟩
    rw [hlen]
    simp only [insertionInner, hgu, hgx]
    by_cases hc : less x u = true
    · rw [if_pos (by simp [hc])]
      have h5 : (goSwap arr (s'.length + 1) s'.length).toList =
          s' ++ x :: u :: t := goSwap_adj_toList arr s' t u x h2
      rw [ih x (u :: t) _ h5 hs', goInsertList_append_gt x u hc s']
      simp
    · have hc2 : less x u = false := by simpa using hc
      rw [if_neg (by simp [hc2])]
      have hall : ∀ z ∈ s' ++ [u], less x z = false := by
        intro z hz
        rcases List.mem_append.mp hz with h6 | h6
        · exact Htrans4 x u z hc2 (hcross z h6 u (by simp))
        · have h7 : z = u := by simpa using h6
          rw [h7]
          exact hc2
      rw [goInsertList_append_all_le x (s' ++ [u]) hall]
      simp [h]

/-- The outer loop of Go's insertion sort folds the list-level insertion
step over the unsorted suffix. -/
theorem insertionSortAux_toList
    (Hasym : ∀ u v : α, less u v = true → less v u = false)
    (Htrans2 : ∀ u v w : α, less u v = true → less w v = false →
      less w u = false)
    (Htrans4 : ∀ u v w : α, less u v = false → less v w = false →
      less u w = false) :
    ∀ (t s : List α) (fuel : Nat) (arr : Array α) (b : Nat),
      arr.toList = s ++ t →
      List.Pairwise (fun u v => less v u = false) s →
      t.length ≤ fuel →
      b = s.length + t.length →
      (insertionSortAux less 0 b fuel arr s.length).toList =
        t.foldl (fun acc y => goInsertList less y acc) s
  | [], s, fuel, arr, b, h, _, _, hb => by
    match fuel with
    | 0 => simpa [insertionSortAux] using h
    | f + 1 =>
      simp only [insertionSortAux]
      rw [if_neg (by simp only [List.length_nil] at hb; omega)]
      simpa using h
  | x :: t, s, fuel, arr, b, h, hs, hf, hb => by
    match fuel with
    | 0 => exact absurd hf (by simp)
    | f + 1 =>
      simp only [insertionSortAux, List.foldl_cons]
      rw [if_pos (by simp only [List.length_cons] at hb; omega)]
      have hinner := insertionInner_toList Htrans4 s x t arr h hs
      have hlen1 : (goInsertList less x s).length = s.length + 1 :=
        goInsertList_length x s
      have hrec := insertionSortAux_toList Hasym Htrans2 Htrans4 t
        (goInsertList less x s) f (insertionInner less 0 s.length arr) b
        hinner (goInsertList_pairwise Hasym Htrans2 x s hs)
        (by simp only [List.length_cons] at hf; omega)
        (by simp only [List.length_cons] at hb; omega)
      rwa [hlen1] at hrec

/-- insertionSort_func over a whole slice computes the list-level
insertion sort. -/
theorem insertionSortFunc_toList
    (Hasym : ∀ u v : α, less u v = true → less v u = false)
    (Htrans2 : ∀ u v w : α, less u v = true → less w v = false →
      less w u = false)
    (Htrans4 : ∀ u v w : α, less u v = false → less v w = false →
      less u w = false)
    (l : List α) :
    (insertionSortFunc less l.toArray 0 l.length).toList =
      goIsortList less l := by
  match l with
  | [] => simp [insertionSortFunc, insertionSortAux, goIsortList]
  | z :: ls =>
    unfold insertionSortFunc
    have h := insertionSortAux_toList Hasym Htrans2 Htrans4 ls [z]
      (ls.length + 2) (z :: ls).toArray (ls.length + 1)
      (by simp) (by simp) (by omega) (by simp; omega)
    have e1 : (z :: ls).length = ls.length + 1 := by simp
    have e2 : ls.length + 1 - 0 + 1 = ls.length + 2 := by omega
    rw [e1, e2]
    have e3 : ([z] : List α).length = 1 := rfl
    rw [e3] at h
    rw [show (0 : Nat) + 1 = 1 from rfl, h]
    simp [goIsortList, goInsertList]

/-- sort.Slice on at most 12 elements is exactly the stable list-level
insertion sort: pdqsort dispatches such a slice to insertionSort_func on
the first iteration. -/
theorem pdqsortAux_small (fuel : Nat) (arr : Array α) (a b limit : Nat)
    (wb wp : Bool) (h : b - a ≤ 12) :
    pdqsortAux less (fuel + 1) arr a b limit wb wp =
      some (insertionSortFunc less arr a b) := by
  simp only [pdqsortAux]
  rw [if_pos h]

theorem goSortSlice_small
    (Hasym : ∀ u v : α, less u v = true → less v u = false)
    (Htrans2 : ∀ u v w : α, less u v = true → less w v = false →
      less w u = false)
    (Htrans4 : ∀ u v w : α, less u v = false → less v w = false →
      less u w = false)
    (l : List α) (h : l.length ≤ 12) :
    goSortSlice less l = some (goIsortList less l) := by
  unfold goSortSlice sortSliceFunc
  have hsz : l.toArray.size = l.length := by simp
  rw [show (1000000 : Nat) = 999999 + 1 from rfl,
    pdqsortAux_small 999999 l.toArray 0 l.toArray.size _ true true
      (by rw [hsz]; omega)]
  simp only [Option.map_some']
  rw [hsz, insertionSortFunc_toList Hasym Htrans2 Htrans4 l]

end InsertionSpec

-- ---------------------------------------------------------------------
-- Order facts about Time.Before on parsed "HH:MM" times, needed to
-- instantiate the insertion-sort specification at the comparator of
-- GetEventsForDate.
-- ---------------------------------------------------------------------

theorem timeBefore_asymm (u v : TimeOfDay) (h : timeBefore u v = true) :
    timeBefore v u = false := by
  simp [timeBefore] at h ⊢
  omega

theorem timeBefore_trans2 (u v w : TimeOfDay) (h1 : timeBefore u v = true)
    (h2 : timeBefore w v = false) : timeBefore w u = false := by
  simp [timeBefore] at h1 h2 ⊢
  omega

theorem timeBefore_trans3 (u v w : TimeOfDay) (h1 : timeBefore u v = true)
    (h2 : timeBefore w v = false) : timeBefore u w = true := by
  simp [timeBefore] at h1 h2 ⊢
  omega

theorem timeBefore_trans4 (u v w : TimeOfDay) (h1 : timeBefore u v = false)
    (h2 : timeBefore v w = false) : timeBefore u w = false := by
  simp [timeBefore] at h1 h2 ⊢
  omega

theorem timeBefore_irrefl_of_eq (u v : TimeOfDay) (h : u = v) :
    timeBefore u v = false := by
  subst h
  simp [timeBefore]

theorem eventLess_asymm (u v : Event)
    (h : timeBefore u.time v.time = true) : timeBefore v.time u.time = false :=
  timeBefore_asymm _ _ h

theorem eventLess_trans2 (u v w : Event)
    (h1 : timeBefore u.time v.time = true)
    (h2 : timeBefore w.time v.time = false) :
    timeBefore w.time u.time = false :=
  timeBefore_trans2 _ _ _ h1 h2

theorem eventLess_trans3 (u v w : Event)
    (h1 : timeBefore u.time v.time = true)
    (h2 : timeBefore w.time v.time = false) :
    timeBefore u.time w.time = true :=
  timeBefore_trans3 _ _ _ h1 h2

theorem eventLess_trans4 (u v w : Event)
    (h1 : timeBefore u.time v.time = false)
    (h2 : timeBefore v.time w.time = false) :
    timeBefore u.time w.time = false :=
  timeBefore_trans4 _ _ _ h1 h2

theorem eventLess_class (t : TimeOfDay) (u w : Event)
    (hu : (u.time == t) = true) (hw : (w.time == t) = true) :
    timeBefore u.time w.time = false := by
  have hu2 : u.time = t := by simpa using hu
  have hw2 : w.time = t := by simpa using hw
  exact timeBefore_irrefl_of_eq _ _ (by rw [hu2, hw2])

/-- C2 (amended): any result GetEventsForDate returns consists of exactly
the stored events whose day-normalized date equals the day-normalized
argument, as a multiset; and whenever at most 12 events match (the regime
Go's pdqsort hands to its stable insertion-sort routine, which covers the
dedicated two-event tie test), it does return a result, and that result is
sorted ascending by time-of-day with equal-time events in their relative
stored order: each time-of-day class of the output equals the
corresponding class of the filtered list in storage order.  Beyond 12
matching events only the multiset equality is asserted, and the original
claim's unqualified stability indeed fails at 13 events (see the
counterexample). -/
theorem c2_sort_semantics (events : List Event) (date : Date) :
    (∀ r, getEventsForDate events date = some r →
      r.Perm (dateEventsFor events date)) ∧
    ((dateEventsFor events date).length ≤ 12 →
      ∃ r, getEventsForDate events date = some r ∧
        List.Pairwise (fun x y => timeBefore y.time x.time = false) r ∧
        ∀ t : TimeOfDay,
          r.filter (fun ev => ev.time == t) =
            (dateEventsFor events date).filter (fun ev => ev.time == t)) := by
  constructor
  · intro r h
    exact goSortSlice_perm _ r h
  · intro hlen
    refine ⟨goIsortList (fun x y => timeBefore x.time y.time)
      (dateEventsFor events date), ?_, ?_, ?_⟩
    · exact goSortSlice_small eventLess_asymm eventLess_trans2
        eventLess_trans4 _ hlen
    · exact goIsortList_pairwise eventLess_asymm eventLess_trans2 _
    · intro t
      exact goIsortList_filter (fun ev => ev.time == t) eventLess_asymm
        eventLess_trans2 eventLess_trans3 (eventLess_class t) _

/-- Witness for C2: at three same-day events with a time tie (9:00 "a",
7:00 "b", 9:00 "c"), GetEventsForDate succeeds, is sorted, and keeps the
tie in stored order. -/
theorem c2_sort_semantics_witness :
    ∃ r, getEventsForDate [c2Event 9 "a", c2Event 7 "b", c2Event 9 "c"]
        c2Date = some r ∧
      List.Pairwise (fun x y => timeBefore y.time x.time = false) r ∧
      ∀ t : TimeOfDay,
        r.filter (fun ev => ev.time == t) =
          (dateEventsFor [c2Event 9 "a", c2Event 7 "b", c2Event 9 "c"]
            c2Date).filter (fun ev => ev.time == t) :=
  (c2_sort_semantics [c2Event 9 "a", c2Event 7 "b", c2Event 9 "c"]
    c2Date).2 (by decide)
